import Mathlib

/-!
Verification of the room-scoped broadcast engine and ephemeral-lifecycle
scheduler of the encrypted chat relay (canonical implementation:
`backend/main.py`).

The Python code is shallowly embedded as executable Lean definitions:

* Python `dict`s keyed by room id / websocket become functions into `Option`;
* Python `set`s of websockets become duplicate-free `List`s (insertion is
  add-if-absent, removal filters), with the iteration order of a set fixed
  to list order — an admissible resolution of Python's unspecified order;
* awaited sends, store writes and store deletions are the only fallible
  operations; their outcomes are passed in explicitly (`sendOk`, `dbUp`,
  `insertOutcome`, `deleteRaises`) since every `except` in the source merely
  logs, so an exception is observationally "the operation did not happen";
* MongoDB collections become lists of records; `update_one`/`delete_one`
  act on the first matching record, `delete_many` on all of them, `upsert`
  replaces-or-appends.

Websocket handles and room/message identifiers are opaque in the source and
are represented by `Nat`; wall-clock instants by `Int` (seconds).
-/

namespace ChatApp

abbrev Peer := Nat
abbrev RoomId := Nat
abbrev MsgId := Nat
abbrev Time := Int

/-- Config knob `ROOM_TTL_HOURS` (default 2, from `backend/main.py` line 19). -/
def ROOM_TTL_HOURS : Int := 2

/-- Config knob `SELF_DESTRUCT_SECONDS_DEFAULT` (default 60, line 21). -/
def SELF_DESTRUCT_SECONDS_DEFAULT : Int := 60

/-- One document of the `rooms` collection. -/
structure RoomRec where
  room_id : RoomId
  created_at : Time
  expires_at : Time
  active : Bool
deriving DecidableEq, Repr

/-- One document of the `messages` collection (fields of `message_doc`,
`backend/main.py` lines 421-429; the opaque ciphertext is not stored in the
model since no claim inspects it; `id` is the Mongo-assigned `_id`). -/
structure MsgRec where
  id : MsgId
  room_id : RoomId
  username : String
  selfDestruct : Bool
  destructTime : Option Int
  timestamp : Time
  destructAt : Option Time
deriving DecidableEq, Repr

/-- The durable store: the `rooms` and `messages` collections. -/
structure Store where
  rooms : List RoomRec
  messages : List MsgRec
deriving DecidableEq, Repr

def Store.init : Store := ⟨[], []⟩

/-- The in-memory state of `ConnectionManager` (lines 77-81): `active_rooms`,
`room_created_at` and `user_names` are Python dicts, embedded as partial maps;
a room's value is its peer set as a duplicate-free list. -/
structure Registry where
  active_rooms : RoomId → Option (List Peer)
  room_created_at : RoomId → Option Time
  user_names : Peer → Option String

def Registry.init : Registry := ⟨fun _ => none, fun _ => none, fun _ => none⟩

/-- Peers currently registered under `rid` (empty when the room is absent). -/
def peersOf (reg : Registry) (rid : RoomId) : List Peer :=
  (reg.active_rooms rid).getD []

/-- `db.rooms.update_one({room_id}, {$set: ...}, upsert=True)`: replace the
first record with this `room_id`, or append when none exists. -/
def upsertRoomRec : List RoomRec → RoomRec → List RoomRec
  | [], nr => [nr]
  | r :: rs, nr => if r.room_id = nr.room_id then nr :: rs else r :: upsertRoomRec rs nr

/-- The durable side effect of first connect to a room (lines 92-102):
upsert a room record with `expires_at = now + ROOM_TTL_HOURS`. -/
def Store.upsertRoom (st : Store) (rid : RoomId) (now : Time) : Store :=
  { st with rooms := upsertRoomRec st.rooms ⟨rid, now, now + ROOM_TTL_HOURS * 3600, true⟩ }

/-- `self.active_rooms[room_id].add(websocket)`: set-add, append-if-absent. -/
def addPeer (reg : Registry) (ws : Peer) (rid : RoomId) : Registry :=
  { reg with
    active_rooms := fun r =>
      if r = rid then
        some (let ps := (reg.active_rooms rid).getD []
              if ws ∈ ps then ps else ps ++ [ws])
      else reg.active_rooms r }

/-- `ConnectionManager.connect` (lines 83-106): create the registry entry and
creation-time record on first connect (with the durable upsert when the db is
up — a raised upsert is logged and leaves the store unchanged, which `dbUp =
false` also covers), then add the websocket to the room's peer set. -/
def connect (st : Store) (reg : Registry) (ws : Peer) (rid : RoomId) (now : Time)
    (dbUp : Bool) : Store × Registry :=
  match reg.active_rooms rid with
  | none =>
    let reg1 : Registry :=
      { reg with
        active_rooms := fun r => if r = rid then some [] else reg.active_rooms r
        room_created_at := fun r => if r = rid then some now else reg.room_created_at r }
    let st1 := if dbUp then st.upsertRoom rid now else st
    (st1, addPeer reg1 ws rid)
  | some _ => (st, addPeer reg ws rid)

/-- `ConnectionManager.disconnect` (lines 108-117): discard the websocket from
the room's set, drop its username, and when the set became empty delete the
room entry and its creation-time record. -/
def disconnect (reg : Registry) (ws : Peer) (rid : RoomId) : Registry :=
  match reg.active_rooms rid with
  | none => reg
  | some ps =>
    let ps' := ps.filter (fun p => p != ws)
    let names := fun p => if p = ws then none else reg.user_names p
    if ps'.isEmpty then
      { active_rooms := fun r => if r = rid then none else reg.active_rooms r
        room_created_at := fun r => if r = rid then none else reg.room_created_at r
        user_names := names }
    else
      { reg with
        active_rooms := fun r => if r = rid then some ps' else reg.active_rooms r
        user_names := names }

/-- Discriminator of an outbound event envelope. -/
inductive EventKind
  | user_joined
  | user_left
  | typing
  | reaction
  | message
  | message_deleted
  | room_expired
deriving DecidableEq, Repr

/-- An outbound envelope, projected to the fields the claims mention. -/
structure OutEvent where
  kind : EventKind
  message_id : Option MsgId
  username : Option String
deriving DecidableEq, Repr

/-- A successful `send_json` to one peer of one room. -/
structure Delivery where
  peer : Peer
  room : RoomId
  event : OutEvent
deriving DecidableEq, Repr

/-- The peers `ConnectionManager.broadcast` attempts delivery to: every member
of the room's current set except `exclude` (`if connection == exclude:
continue`, line 125; `exclude = none` matches nothing). -/
def broadcastTargets (reg : Registry) (rid : RoomId) (exclude : Option Peer) : List Peer :=
  match reg.active_rooms rid with
  | none => []
  | some ps => ps.filter (fun c => decide (some c ≠ exclude))

/-- `ConnectionManager.broadcast` (lines 119-134): attempt `send_json` to every
non-excluded peer; a raised send is caught, the peer is collected into
`disconnected` and, after the loop, removed via `disconnect`. Returns the
updated registry and the successful deliveries. -/
def broadcast (reg : Registry) (ev : OutEvent) (rid : RoomId) (exclude : Option Peer)
    (sendOk : Peer → Bool) : Registry × List Delivery :=
  let targets := broadcastTargets reg rid exclude
  let delivered := targets.filter sendOk
  let failed := targets.filter (fun c => !(sendOk c))
  let reg1 := failed.foldl (fun r c => disconnect r c rid) reg
  (reg1, delivered.map (fun c => ⟨c, rid, ev⟩))

/-- A join (connect) or leave (disconnect) of one peer. -/
inductive RegOp
  | conn (ws : Peer) (rid : RoomId) (now : Time) (dbUp : Bool)
  | disc (ws : Peer) (rid : RoomId)

def applyRegOp : Store × Registry → RegOp → Store × Registry
  | (st, reg), .conn ws rid now dbUp => connect st reg ws rid now dbUp
  | (st, reg), .disc ws rid => (st, disconnect reg ws rid)

def applyRegOps (s : Store × Registry) (ops : List RegOp) : Store × Registry :=
  ops.foldl applyRegOp s

/-- The registry invariant: every present peer set is nonempty, and the
creation-time map has exactly the keys of the room map. -/
def RegistryInv (reg : Registry) : Prop :=
  ∀ rid, (∀ ps, reg.active_rooms rid = some ps → ps ≠ []) ∧
    ((reg.room_created_at rid).isSome ↔ (reg.active_rooms rid).isSome)

theorem registryInv_init : RegistryInv Registry.init := by
  intro rid
  constructor
  · intro ps h
    simp [Registry.init] at h
  · simp [Registry.init]

theorem connect_active (st : Store) (reg : Registry) (ws : Peer) (rid : RoomId)
    (now : Time) (dbUp : Bool) (r : RoomId) :
    (connect st reg ws rid now dbUp).2.active_rooms r =
      if r = rid then
        some (match reg.active_rooms rid with
              | none => [ws]
              | some ps => if ws ∈ ps then ps else ps ++ [ws])
      else reg.active_rooms r := by
  rcases hrm : reg.active_rooms rid with _ | ps <;>
    by_cases hr : r = rid <;>
      simp [connect, addPeer, hrm, hr]

theorem connect_created (st : Store) (reg : Registry) (ws : Peer) (rid : RoomId)
    (now : Time) (dbUp : Bool) (r : RoomId) :
    (connect st reg ws rid now dbUp).2.room_created_at r =
      match reg.active_rooms rid with
      | none => if r = rid then some now else reg.room_created_at r
      | some _ => reg.room_created_at r := by
  rcases hrm : reg.active_rooms rid with _ | _ <;>
    simp [connect, addPeer, hrm]

theorem disconnect_active (reg : Registry) (ws : Peer) (rid : RoomId) (r : RoomId) :
    (disconnect reg ws rid).active_rooms r =
      match reg.active_rooms rid with
      | none => reg.active_rooms r
      | some ps =>
        if r = rid then
          (if (ps.filter (fun p => p != ws)).isEmpty then none
           else some (ps.filter (fun p => p != ws)))
        else reg.active_rooms r := by
  rcases hrm : reg.active_rooms rid with _ | ps
  · simp [disconnect, hrm]
  · by_cases hemp : (ps.filter (fun p => p != ws)).isEmpty <;>
      by_cases hr : r = rid <;>
        simp [disconnect, hrm, hemp, hr]

theorem disconnect_created (reg : Registry) (ws : Peer) (rid : RoomId) (r : RoomId) :
    (disconnect reg ws rid).room_created_at r =
      match reg.active_rooms rid with
      | none => reg.room_created_at r
      | some ps =>
        if (ps.filter (fun p => p != ws)).isEmpty then
          (if r = rid then none else reg.room_created_at r)
        else reg.room_created_at r := by
  rcases hrm : reg.active_rooms rid with _ | ps
  · simp [disconnect, hrm]
  · by_cases hemp : (ps.filter (fun p => p != ws)).isEmpty <;>
      by_cases hr : r = rid <;>
        simp [disconnect, hrm, hemp, hr]

theorem disconnect_names (reg : Registry) (ws : Peer) (rid : RoomId) (p : Peer) :
    (disconnect reg ws rid).user_names p =
      match reg.active_rooms rid with
      | none => reg.user_names p
      | some _ => if p = ws then none else reg.user_names p := by
  rcases hrm : reg.active_rooms rid with _ | ps
  · simp [disconnect, hrm]
  · by_cases hemp : (ps.filter (fun p => p != ws)).isEmpty <;>
      simp [disconnect, hrm, hemp]

theorem registryInv_connect (st : Store) (reg : Registry) (ws : Peer) (rid : RoomId)
    (now : Time) (dbUp : Bool) (h : RegistryInv reg) :
    RegistryInv (connect st reg ws rid now dbUp).2 := by
  intro r
  constructor
  · intro qs hqs
    rw [connect_active] at hqs
    by_cases hr : r = rid
    · rw [if_pos hr, Option.some.injEq] at hqs
      rcases hrm : reg.active_rooms rid with _ | ps <;> simp only [hrm] at hqs
      · subst hqs
        simp
      · subst hqs
        by_cases hws : ws ∈ ps
        · rw [if_pos hws]
          exact List.ne_nil_of_mem hws
        · rw [if_neg hws]
          simp
    · rw [if_neg hr] at hqs
      exact (h r).1 qs hqs
  · rw [connect_created, connect_active]
    rcases hrm : reg.active_rooms rid with _ | ps <;> simp only [hrm]
    · by_cases hr : r = rid
      · simp [hr]
      · simp only [if_neg hr]
        exact (h r).2
    · by_cases hr : r = rid
      · subst hr
        simp only [if_pos rfl, Option.isSome_some, iff_true]
        have := (h r).2
        rw [hrm] at this
        simpa using this
      · simp only [if_neg hr]
        exact (h r).2

theorem registryInv_disconnect (reg : Registry) (ws : Peer) (rid : RoomId)
    (h : RegistryInv reg) : RegistryInv (disconnect reg ws rid) := by
  intro r
  constructor
  · intro qs hqs
    rw [disconnect_active] at hqs
    rcases hrm : reg.active_rooms rid with _ | ps <;> simp only [hrm] at hqs
    · exact (h r).1 qs hqs
    · by_cases hr : r = rid
      · rw [if_pos hr] at hqs
        by_cases hemp : (ps.filter (fun p => p != ws)).isEmpty
        · rw [if_pos hemp] at hqs
          exact absurd hqs (by simp)
        · rw [if_neg hemp, Option.some.injEq] at hqs
          subst hqs
          intro hnil
          rw [hnil] at hemp
          simp at hemp
      · rw [if_neg hr] at hqs
        exact (h r).1 qs hqs
  · rw [disconnect_created, disconnect_active]
    rcases hrm : reg.active_rooms rid with _ | ps <;> simp only [hrm]
    · exact (h r).2
    · by_cases hemp : (ps.filter (fun p => p != ws)).isEmpty <;>
        by_cases hr : r = rid
      · simp [hemp, hr]
      · simp only [if_pos hemp, if_neg hr]
        exact (h r).2
      · subst hr
        simp only [if_neg hemp, if_pos rfl, Option.isSome_some, iff_true]
        have := (h r).2
        rw [hrm] at this
        simpa using this
      · simp only [if_neg hemp, if_neg hr]
        exact (h r).2

theorem registryInv_applyRegOps (s : Store × Registry) (ops : List RegOp)
    (h : RegistryInv s.2) : RegistryInv (applyRegOps s ops).2 := by
  induction ops generalizing s with
  | nil => exact h
  | cons op rest ih =>
    rcases s with ⟨st, reg⟩
    rcases op with ⟨ws, rid, now, dbUp⟩ | ⟨ws, rid⟩
    · exact ih _ (registryInv_connect st reg ws rid now dbUp h)
    · exact ih _ (registryInv_disconnect reg ws rid h)

/-- C1: for every sequence of join/leave (connect/disconnect) operations from
the initial empty state, a room identifier is a key of `active_rooms` iff its
peer set is nonempty, and the creation-time map `room_created_at` has exactly
the same keys — so after the last peer of a room leaves, both the room entry
and its creation-time record are gone. -/
theorem registry_membership_invariant (ops : List RegOp) (rid : RoomId) :
    (((applyRegOps (Store.init, Registry.init) ops).2.active_rooms rid).isSome ↔
      ∃ ps, (applyRegOps (Store.init, Registry.init) ops).2.active_rooms rid = some ps ∧
        ps ≠ []) ∧
    (((applyRegOps (Store.init, Registry.init) ops).2.room_created_at rid).isSome ↔
      ((applyRegOps (Store.init, Registry.init) ops).2.active_rooms rid).isSome) := by
  have hinv := registryInv_applyRegOps (Store.init, Registry.init) ops registryInv_init
  rcases hinv rid with ⟨h1, h2⟩
  refine ⟨⟨fun hs => ?_, fun ⟨ps, hps, _⟩ => by simp [hps]⟩, h2⟩
  rcases hsome : (applyRegOps (Store.init, Registry.init) ops).2.active_rooms rid with _ | ps
  · rw [hsome] at hs
    simp at hs
  · exact ⟨ps, rfl, h1 ps hsome⟩

theorem broadcastTargets_of_none (reg : Registry) (rid : RoomId) (ps : List Peer)
    (hps : reg.active_rooms rid = some ps) :
    broadcastTargets reg rid none = ps := by
  simp [broadcastTargets, hps]

theorem broadcastTargets_of_some (reg : Registry) (rid : RoomId) (e : Peer) (ps : List Peer)
    (hps : reg.active_rooms rid = some ps) :
    broadcastTargets reg rid (some e) = ps.filter (fun c => c != e) := by
  simp only [broadcastTargets, hps]
  apply List.filter_congr
  intro c _
  by_cases hce : c = e
  · subst hce
    simp
  · simp [hce]

theorem length_filter_bne_of_mem {ps : List Peer} {e : Peer} (hnd : ps.Nodup) (he : e ∈ ps) :
    (ps.filter (fun c => c != e)).length = ps.length - 1 := by
  induction ps with
  | nil => cases he
  | cons a l ih =>
    rcases List.nodup_cons.mp hnd with ⟨ha, hl⟩
    rcases List.mem_cons.mp he with he' | hel
    · have hfl : l.filter (fun c => c != e) = l := by
        apply List.filter_eq_self.mpr
        intro c hc
        simp only [bne_iff_ne, ne_eq, decide_eq_true_eq]
        intro hce
        exact ha (by rw [← he', ← hce]; exact hc)
      have hae : (a != e) = false := by simp [he']
      rw [List.filter_cons]
      simp [hae, hfl]
    · have hne : a ≠ e := fun hae => ha (hae ▸ hel)
      have hlen : 0 < l.length := List.length_pos.mpr (List.ne_nil_of_mem hel)
      have hp : (a != e) = true := by simpa [bne_iff_ne] using hne
      rw [List.filter_cons]
      simp only [hp, if_true, List.length_cons, ih hl hel]
      omega

theorem mem_broadcast_deliveries (reg : Registry) (ev : OutEvent) (rid : RoomId)
    (exclude : Option Peer) (sendOk : Peer → Bool) {d : Delivery}
    (hd : d ∈ (broadcast reg ev rid exclude sendOk).2) :
    d.peer ∈ broadcastTargets reg rid exclude ∧ sendOk d.peer = true ∧
      d.room = rid ∧ d.event = ev := by
  simp only [broadcast] at hd
  rcases List.mem_map.mp hd with ⟨c, hc, rfl⟩
  rcases List.mem_filter.mp hc with ⟨hct, hcs⟩
  exact ⟨hct, hcs, rfl, rfl⟩

theorem broadcast_delivers (reg : Registry) (ev : OutEvent) (rid : RoomId)
    (exclude : Option Peer) (sendOk : Peer → Bool) {p : Peer}
    (hp : p ∈ broadcastTargets reg rid exclude) (hok : sendOk p = true) :
    (⟨p, rid, ev⟩ : Delivery) ∈ (broadcast reg ev rid exclude sendOk).2 := by
  simp only [broadcast]
  exact List.mem_map.mpr ⟨p, List.mem_filter.mpr ⟨hp, hok⟩, rfl⟩

/-- C2: for a room registered with peer set `ps` (`N = ps.length`), `broadcast`
attempts delivery to exactly `N - 1` peers when `exclude` is a member of the
set, and to exactly `N` peers when `exclude` is `none` or not a member; the
excluded peer never appears among the deliveries. -/
theorem broadcast_delivery_count (reg : Registry) (ev : OutEvent) (rid : RoomId)
    (exclude : Option Peer) (sendOk : Peer → Bool) (ps : List Peer)
    (hps : reg.active_rooms rid = some ps) (hnd : ps.Nodup) :
    ((broadcastTargets reg rid exclude).length =
      match exclude with
      | some e => if e ∈ ps then ps.length - 1 else ps.length
      | none => ps.length) ∧
    (∀ e, exclude = some e →
      ∀ d ∈ (broadcast reg ev rid exclude sendOk).2, d.peer ≠ e) := by
  constructor
  · rcases exclude with _ | e
    · simp [broadcastTargets_of_none reg rid ps hps]
    · rw [broadcastTargets_of_some reg rid e ps hps]
      by_cases he : e ∈ ps
      · simp only [if_pos he]
        exact length_filter_bne_of_mem hnd he
      · simp only [if_neg he]
        congr 1
        apply List.filter_eq_self.mpr
        intro c hc
        simp only [bne_iff_ne, ne_eq, decide_eq_true_eq]
        intro hce
        exact he (hce ▸ hc)
  · rintro e rfl d hd rfl
    have hmem := (mem_broadcast_deliveries reg ev rid (some d.peer) sendOk hd).1
    rw [broadcastTargets_of_some reg rid d.peer ps hps] at hmem
    rcases List.mem_filter.mp hmem with ⟨_, hne⟩
    simp at hne

/-- Sample registry: peers 1, 2, 3 joined to room 7. -/
def regEx : Registry :=
  (applyRegOps (Store.init, Registry.init)
    [.conn 1 7 0 false, .conn 2 7 0 false, .conn 3 7 0 false]).2

theorem broadcast_delivery_count_witness :
    regEx.active_rooms 7 = some [1, 2, 3] ∧ ([1, 2, 3] : List Peer).Nodup ∧
    (((broadcastTargets regEx 7 (some 2)).length =
      match (some 2 : Option Peer) with
      | some e => if e ∈ ([1, 2, 3] : List Peer) then [1, 2, 3].length - 1
                  else ([1, 2, 3] : List Peer).length
      | none => ([1, 2, 3] : List Peer).length) ∧
    (∀ e, (some 2 : Option Peer) = some e →
      ∀ d ∈ (broadcast regEx ⟨.typing, none, none⟩ 7 (some 2) (fun _ => true)).2,
        d.peer ≠ e)) :=
  ⟨by decide, by decide,
   broadcast_delivery_count regEx ⟨.typing, none, none⟩ 7 (some 2) (fun _ => true)
     [1, 2, 3] (by decide) (by decide)⟩

theorem peersOf_disconnect_subset (reg : Registry) (ws : Peer) (rid r : RoomId)
    (q : Peer) (hq : q ∈ peersOf (disconnect reg ws rid) r) : q ∈ peersOf reg r := by
  rcases hrm : reg.active_rooms rid with _ | ps
  · simpa [peersOf, disconnect, hrm] using hq
  · by_cases hr : r = rid
    · subst hr
      by_cases hemp : (ps.filter (fun p => p != ws)).isEmpty
      · simp [peersOf, disconnect, hrm, hemp] at hq
      · simp only [peersOf, disconnect, hrm, hemp, Bool.false_eq_true, if_false,
          if_pos rfl, Option.getD_some] at hq
        simp only [peersOf, hrm, Option.getD_some]
        exact List.mem_of_mem_filter hq
    · by_cases hemp : (ps.filter (fun p => p != ws)).isEmpty <;>
        simpa [peersOf, disconnect, hrm, hemp, hr] using hq

theorem not_mem_peersOf_disconnect_self (reg : Registry) (ws : Peer) (rid : RoomId) :
    ws ∉ peersOf (disconnect reg ws rid) rid := by
  rcases hrm : reg.active_rooms rid with _ | ps
  · simp [peersOf, disconnect, hrm]
  · by_cases hemp : (ps.filter (fun p => p != ws)).isEmpty
    · simp [peersOf, disconnect, hrm, hemp]
    · simp only [peersOf, disconnect, hrm, hemp, Bool.false_eq_true, if_false,
        if_pos rfl, Option.getD_some]
      intro hmem
      rcases List.mem_filter.mp hmem with ⟨_, hne⟩
      simp at hne

theorem peersOf_foldl_disconnect_subset (l : List Peer) (reg : Registry) (rid r : RoomId)
    (q : Peer) (hq : q ∈ peersOf (l.foldl (fun rg c => disconnect rg c rid) reg) r) :
    q ∈ peersOf reg r := by
  induction l generalizing reg with
  | nil => exact hq
  | cons a t ih =>
    exact peersOf_disconnect_subset reg a rid r q (ih (disconnect reg a rid) hq)

theorem not_mem_peersOf_foldl_disconnect (l : List Peer) (reg : Registry) (rid : RoomId)
    {p : Peer} (hp : p ∈ l) :
    p ∉ peersOf (l.foldl (fun rg c => disconnect rg c rid) reg) rid := by
  induction l generalizing reg with
  | nil => cases hp
  | cons a t ih =>
    rcases List.mem_cons.mp hp with rfl | hpt
    · intro hmem
      exact not_mem_peersOf_disconnect_self reg p rid
        (peersOf_foldl_disconnect_subset t (disconnect reg p rid) rid rid p hmem)
    · exact ih (disconnect reg a rid) hpt

/-- C3: a failed send to one peer does not prevent delivery to any other
non-excluded peer — every target whose send succeeds gets the message no
matter how the other sends fare — and each target whose send fails is removed
from the room via `disconnect`. The caller sees no error: `broadcast` is total
(every exception in the source is caught inside the loop). -/
theorem broadcast_failure_isolation (reg : Registry) (ev : OutEvent) (rid : RoomId)
    (exclude : Option Peer) (sendOk : Peer → Bool) :
    (∀ p ∈ broadcastTargets reg rid exclude, sendOk p = true →
      (⟨p, rid, ev⟩ : Delivery) ∈ (broadcast reg ev rid exclude sendOk).2) ∧
    (∀ p ∈ broadcastTargets reg rid exclude, sendOk p = false →
      p ∉ peersOf (broadcast reg ev rid exclude sendOk).1 rid) := by
  constructor
  · intro p hp hok
    exact broadcast_delivers reg ev rid exclude sendOk hp hok
  · intro p hp hfail
    have hpf : p ∈ (broadcastTargets reg rid exclude).filter (fun c => !(sendOk c)) :=
      List.mem_filter.mpr ⟨hp, by simp [hfail]⟩
    simpa only [broadcast] using
      not_mem_peersOf_foldl_disconnect _ reg rid hpf

/-- The `seconds` value computed by the `message` handler (lines 410-419),
`none` when the message does not self-destruct. Python truthiness drives
`int(destruct_time) if destruct_time else SELF_DESTRUCT_SECONDS_DEFAULT`
(line 414): both `None` and `0` are falsy and fall back to the default;
then `seconds = max(5, min(seconds, 600))`. -/
def computeDestructSeconds (selfDestruct : Bool) (destructTime : Option Int) : Option Int :=
  if selfDestruct then
    let seconds : Int :=
      match destructTime with
      | some n => if n ≠ 0 then n else SELF_DESTRUCT_SECONDS_DEFAULT
      | none => SELF_DESTRUCT_SECONDS_DEFAULT
    some (max 5 (min seconds 600))
  else none

/-- `destruct_at = now + timedelta(seconds=seconds)` (line 416). -/
def destructAt (now : Time) (seconds : Int) : Time := now + seconds

/-- The duration the armed timer actually sleeps:
`await asyncio.sleep(max(1, int(seconds)))` (line 183). -/
def timerSleepSeconds (seconds : Int) : Int := max 1 seconds

/-- C4 counterexample: a requested delay of `0` is falsy in Python, so the code
substitutes the default 60 rather than clamping the request (clamping 0 to
[5, 600] would give 5). -/
theorem destruct_clamp_fails_at_zero :
    computeDestructSeconds true (some 0) ≠ some (max 5 (min 0 600)) ∧
    computeDestructSeconds true (some 0) = some 60 ∧
    max (5 : Int) (min 0 600) = 5 := by
  refine ⟨?_, by decide, by decide⟩
  decide

/-- C4 (amended): for a self-destructing message, a present nonzero requested
delay is clamped to [5, 600] (1000 becomes 600, 2 becomes 5); an absent — or
zero, hence falsy — requested delay yields the configured default of 60
seconds; the armed timer sleeps exactly the effective delay and the record's
destruct-at instant is now + delay. -/
theorem destruct_delay_clamped (d : Int) (hd : d ≠ 0) (now : Time) :
    computeDestructSeconds true (some d) = some (max 5 (min d 600)) ∧
    computeDestructSeconds true none = some SELF_DESTRUCT_SECONDS_DEFAULT ∧
    computeDestructSeconds true (some 0) = some SELF_DESTRUCT_SECONDS_DEFAULT ∧
    computeDestructSeconds true (some 1000) = some 600 ∧
    computeDestructSeconds true (some 2) = some 5 ∧
    ∀ s, computeDestructSeconds true (some d) = some s →
      timerSleepSeconds s = s ∧ destructAt now s = now + s := by
  refine ⟨by simp [computeDestructSeconds, hd], by decide, by decide, by decide, by decide, ?_⟩
  intro s hs
  simp only [computeDestructSeconds, hd, if_true, ne_eq, not_false_eq_true,
    if_pos, Option.some.injEq] at hs
  refine ⟨?_, rfl⟩
  have h5 : (5 : Int) ≤ s := hs ▸ le_max_left _ _
  unfold timerSleepSeconds
  exact max_eq_right (by linarith)

theorem destruct_delay_clamped_witness :
    (1000 : Int) ≠ 0 ∧
    (computeDestructSeconds true (some 1000) = some (max 5 (min 1000 600)) ∧
     computeDestructSeconds true none = some SELF_DESTRUCT_SECONDS_DEFAULT ∧
     computeDestructSeconds true (some 0) = some SELF_DESTRUCT_SECONDS_DEFAULT ∧
     computeDestructSeconds true (some 1000) = some 600 ∧
     computeDestructSeconds true (some 2) = some 5 ∧
     ∀ s, computeDestructSeconds true (some 1000) = some s →
       timerSleepSeconds s = s ∧ destructAt 0 s = 0 + s) :=
  ⟨by decide, destruct_delay_clamped 1000 (by decide) 0⟩

/-- `db.messages.delete_one({"_id": ObjectId(message_id)})` (line 189): remove
the first record with this id, reporting `deleted_count` (0 or 1). -/
def Store.deleteMessageById (st : Store) (mid : MsgId) : Store × Nat :=
  if st.messages.any (fun m => m.id == mid) then
    ({ st with messages := st.messages.eraseP (fun m => m.id == mid) }, 1)
  else (st, 0)

/-- Outcome of one run of the self-destruct timer body. -/
structure FireResult where
  store : Store
  reg : Registry
  tasks : List MsgId
  deleted_count : Nat
  announced : Bool
  evs : List Delivery

/-- Body of `ConnectionManager.schedule_self_destruct` after its sleep
(lines 181-203). `dbUp = false` is the `if not db: return` guard;
`deleteRaises = true` is a raised `delete_one` (caught and logged). In every
path the `finally` clause pops the task entry; `message_deleted` is broadcast
iff the deletion affected a row. -/
def schedule_self_destruct_fire (dbUp deleteRaises : Bool) (st : Store) (reg : Registry)
    (tasks : List MsgId) (message_id : MsgId) (rid : RoomId) (sendOk : Peer → Bool) :
    FireResult :=
  let tasks' := tasks.filter (fun t => t != message_id)
  if ¬ dbUp then ⟨st, reg, tasks', 0, false, []⟩
  else if deleteRaises then ⟨st, reg, tasks', 0, false, []⟩
  else
    let res := st.deleteMessageById message_id
    if res.2 ≠ 0 then
      let bc := broadcast reg ⟨.message_deleted, some message_id, none⟩ rid none sendOk
      ⟨res.1, bc.1, tasks', res.2, true, bc.2⟩
    else ⟨res.1, reg, tasks', 0, false, []⟩

theorem any_eraseP_eq_false {l : List MsgRec} {mid : MsgId}
    (huniq : (l.filter (fun m => m.id == mid)).length ≤ 1) :
    (l.eraseP (fun m => m.id == mid)).any (fun m => m.id == mid) = false := by
  induction l with
  | nil => simp
  | cons a t ih =>
    by_cases hpa : (a.id == mid) = true
    · rw [List.eraseP_cons_of_pos (p := fun m => m.id == mid) (l := t) hpa]
      rw [List.filter_cons_of_pos (p := fun m => m.id == mid) (l := t) hpa] at huniq
      have ht : t.filter (fun m => m.id == mid) = [] := by
        rcases hft : t.filter (fun m => m.id == mid) with _ | ⟨b, u⟩
        · exact hft
        · rw [hft] at huniq
          simp at huniq
      rw [List.any_eq_false]
      intro x hx
      have : x ∉ t.filter (fun m => m.id == mid) := by
        rw [ht]
        exact List.not_mem_nil x
      intro hpx
      exact this (List.mem_filter.mpr ⟨hx, hpx⟩)
    · rw [List.eraseP_cons_of_neg (p := fun m => m.id == mid) (l := t) (by simpa using hpa)]
      rw [List.filter_cons_of_neg (p := fun m => m.id == mid) (l := t) (by simpa using hpa)] at huniq
      simp only [List.any_cons, ih huniq, Bool.or_false]
      simpa using hpa

theorem fire_of_absent (dbUp deleteRaises : Bool) (st : Store) (reg : Registry)
    (tasks : List MsgId) (mid : MsgId) (rid : RoomId) (sendOk : Peer → Bool)
    (habs : st.messages.any (fun m => m.id == mid) = false) :
    (schedule_self_destruct_fire dbUp deleteRaises st reg tasks mid rid sendOk).deleted_count = 0 ∧
    (schedule_self_destruct_fire dbUp deleteRaises st reg tasks mid rid sendOk).announced = false ∧
    (schedule_self_destruct_fire dbUp deleteRaises st reg tasks mid rid sendOk).store = st ∧
    (schedule_self_destruct_fire dbUp deleteRaises st reg tasks mid rid sendOk).evs = [] := by
  rcases dbUp <;> rcases deleteRaises <;>
    simp [schedule_self_destruct_fire, Store.deleteMessageById, habs]

theorem fire_deleted_count_le_one (dbUp deleteRaises : Bool) (st : Store) (reg : Registry)
    (tasks : List MsgId) (mid : MsgId) (rid : RoomId) (sendOk : Peer → Bool) :
    (schedule_self_destruct_fire dbUp deleteRaises st reg tasks mid rid sendOk).deleted_count ≤ 1 := by
  rcases dbUp <;> rcases deleteRaises <;>
    by_cases hany : st.messages.any (fun m => m.id == mid) = true <;>
      simp [schedule_self_destruct_fire, Store.deleteMessageById, hany]

theorem fire_announced_iff (dbUp deleteRaises : Bool) (st : Store) (reg : Registry)
    (tasks : List MsgId) (mid : MsgId) (rid : RoomId) (sendOk : Peer → Bool) :
    (schedule_self_destruct_fire dbUp deleteRaises st reg tasks mid rid sendOk).announced = true ↔
    (schedule_self_destruct_fire dbUp deleteRaises st reg tasks mid rid sendOk).deleted_count ≠ 0 := by
  rcases dbUp <;> rcases deleteRaises <;>
    by_cases hany : st.messages.any (fun m => m.id == mid) = true <;>
      simp [schedule_self_destruct_fire, Store.deleteMessageById, hany]

theorem fire_absent_after_delete (dbUp deleteRaises : Bool) (st : Store) (reg : Registry)
    (tasks : List MsgId) (mid : MsgId) (rid : RoomId) (sendOk : Peer → Bool)
    (huniq : (st.messages.filter (fun m => m.id == mid)).length ≤ 1)
    (hdel : (schedule_self_destruct_fire dbUp deleteRaises st reg tasks mid rid sendOk).deleted_count ≠ 0) :
    (schedule_self_destruct_fire dbUp deleteRaises st reg tasks mid rid sendOk).store.messages.any
      (fun m => m.id == mid) = false := by
  rcases dbUp <;> rcases deleteRaises <;>
    by_cases hany : st.messages.any (fun m => m.id == mid) = true <;>
      simp_all [schedule_self_destruct_fire, Store.deleteMessageById, hany,
        any_eraseP_eq_false huniq]

/-- C5: firing the self-destruct deletion path twice against the same message
identifier (a timer racing the sweeper or a second timer) deletes the durable
record at most once and broadcasts `message_deleted` at most once; the
broadcast happens iff the deletion affected a row, and firing against an
already-absent record leaves the store untouched, announces nothing, and is
not an error (the function is total). The uniqueness hypothesis is Mongo's
`_id` key: at most one record carries a given identifier. -/
theorem self_destruct_fire_at_most_once (b1 r1 b2 r2 : Bool) (st : Store) (reg : Registry)
    (tasks : List MsgId) (mid : MsgId) (rid : RoomId) (sendOk1 sendOk2 : Peer → Bool)
    (huniq : (st.messages.filter (fun m => m.id == mid)).length ≤ 1) :
    (schedule_self_destruct_fire b1 r1 st reg tasks mid rid sendOk1).deleted_count +
      (schedule_self_destruct_fire b2 r2
        (schedule_self_destruct_fire b1 r1 st reg tasks mid rid sendOk1).store
        (schedule_self_destruct_fire b1 r1 st reg tasks mid rid sendOk1).reg
        (schedule_self_destruct_fire b1 r1 st reg tasks mid rid sendOk1).tasks
        mid rid sendOk2).deleted_count ≤ 1 ∧
    ¬ ((schedule_self_destruct_fire b1 r1 st reg tasks mid rid sendOk1).announced = true ∧
       (schedule_self_destruct_fire b2 r2
         (schedule_self_destruct_fire b1 r1 st reg tasks mid rid sendOk1).store
         (schedule_self_destruct_fire b1 r1 st reg tasks mid rid sendOk1).reg
         (schedule_self_destruct_fire b1 r1 st reg tasks mid rid sendOk1).tasks
         mid rid sendOk2).announced = true) ∧
    ((schedule_self_destruct_fire b1 r1 st reg tasks mid rid sendOk1).announced = true ↔
      (schedule_self_destruct_fire b1 r1 st reg tasks mid rid sendOk1).deleted_count ≠ 0) ∧
    (st.messages.any (fun m => m.id == mid) = false →
      (schedule_self_destruct_fire b1 r1 st reg tasks mid rid sendOk1).store = st ∧
      (schedule_self_destruct_fire b1 r1 st reg tasks mid rid sendOk1).announced = false ∧
      (schedule_self_destruct_fire b1 r1 st reg tasks mid rid sendOk1).deleted_count = 0) := by
  by_cases hdel :
      (schedule_self_destruct_fire b1 r1 st reg tasks mid rid sendOk1).deleted_count = 0
  · refine ⟨?_, ?_, fire_announced_iff b1 r1 st reg tasks mid rid sendOk1, ?_⟩
    · rw [hdel]
      simpa using fire_deleted_count_le_one b2 r2 _ _ _ mid rid sendOk2
    · rintro ⟨h1, _⟩
      exact ((fire_announced_iff b1 r1 st reg tasks mid rid sendOk1).mp h1) hdel
    · intro habs
      exact ⟨(fire_of_absent b1 r1 st reg tasks mid rid sendOk1 habs).2.2.1,
        (fire_of_absent b1 r1 st reg tasks mid rid sendOk1 habs).2.1,
        (fire_of_absent b1 r1 st reg tasks mid rid sendOk1 habs).1⟩
  · have habs2 := fire_absent_after_delete b1 r1 st reg tasks mid rid sendOk1 huniq hdel
    have h2 := fire_of_absent b2 r2 _
      (schedule_self_destruct_fire b1 r1 st reg tasks mid rid sendOk1).reg
      (schedule_self_destruct_fire b1 r1 st reg tasks mid rid sendOk1).tasks
      mid rid sendOk2 habs2
    refine ⟨?_, ?_, fire_announced_iff b1 r1 st reg tasks mid rid sendOk1, ?_⟩
    · rw [h2.1]
      simpa using fire_deleted_count_le_one b1 r1 st reg tasks mid rid sendOk1
    · rintro ⟨_, hann2⟩
      rw [h2.2.1] at hann2
      exact Bool.false_ne_true hann2
    · intro habs
      exact absurd (fire_of_absent b1 r1 st reg tasks mid rid sendOk1 habs).1 hdel

/-- Sample store: one message with id 5 in room 7. -/
def stEx : Store := ⟨[], [⟨5, 7, "alice", true, some 30, 0, some 30⟩]⟩

theorem self_destruct_fire_at_most_once_witness :
    (stEx.messages.filter (fun m => m.id == 5)).length ≤ 1 ∧
    ((schedule_self_destruct_fire true false stEx regEx [5] 5 7 (fun _ => true)).deleted_count +
      (schedule_self_destruct_fire true false
        (schedule_self_destruct_fire true false stEx regEx [5] 5 7 (fun _ => true)).store
        (schedule_self_destruct_fire true false stEx regEx [5] 5 7 (fun _ => true)).reg
        (schedule_self_destruct_fire true false stEx regEx [5] 5 7 (fun _ => true)).tasks
        5 7 (fun _ => true)).deleted_count ≤ 1 ∧
    ¬ ((schedule_self_destruct_fire true false stEx regEx [5] 5 7 (fun _ => true)).announced = true ∧
       (schedule_self_destruct_fire true false
         (schedule_self_destruct_fire true false stEx regEx [5] 5 7 (fun _ => true)).store
         (schedule_self_destruct_fire true false stEx regEx [5] 5 7 (fun _ => true)).reg
         (schedule_self_destruct_fire true false stEx regEx [5] 5 7 (fun _ => true)).tasks
         5 7 (fun _ => true)).announced = true) ∧
    ((schedule_self_destruct_fire true false stEx regEx [5] 5 7 (fun _ => true)).announced = true ↔
      (schedule_self_destruct_fire true false stEx regEx [5] 5 7 (fun _ => true)).deleted_count ≠ 0) ∧
    (stEx.messages.any (fun m => m.id == 5) = false →
      (schedule_self_destruct_fire true false stEx regEx [5] 5 7 (fun _ => true)).store = stEx ∧
      (schedule_self_destruct_fire true false stEx regEx [5] 5 7 (fun _ => true)).announced = false ∧
      (schedule_self_destruct_fire true false stEx regEx [5] 5 7 (fun _ => true)).deleted_count = 0)) :=
  ⟨by decide,
   self_destruct_fire_at_most_once true false true false stEx regEx [5] 5 7
     (fun _ => true) (fun _ => true) (by decide)⟩

/-- `db.rooms.update_one({"room_id": rid}, {"$set": {"active": False}})`
(lines 152-155): deactivate the first matching room record. -/
def setInactiveFirst : List RoomRec → RoomId → List RoomRec
  | [], _ => []
  | r :: rs, rid =>
    if r.room_id = rid then { r with active := false } :: rs
    else r :: setInactiveFirst rs rid

def Store.markRoomInactive (st : Store) (rid : RoomId) : Store :=
  { st with rooms := setInactiveFirst st.rooms rid }

/-- `db.messages.delete_many({"room_id": rid})` (line 157): drop every message
of the room, reporting the deleted count. -/
def Store.deleteMessagesForRoom (st : Store) (rid : RoomId) : Store × Nat :=
  ({ st with messages := st.messages.filter (fun m => m.room_id != rid) },
   (st.messages.filter (fun m => m.room_id == rid)).length)

/-- The sweeper's query (lines 144-146): active rooms whose expiry instant has
passed, in store order, capped at the batch size 200. -/
def expiredRooms (st : Store) (now : Time) : List RoomRec :=
  (st.rooms.filter (fun r => decide (r.expires_at < now) && r.active)).take 200

/-- The `room_expired` notice (lines 161-168; its body carries only prose and
a timestamp, no message id or username). -/
def roomExpiredEvent : OutEvent := ⟨.room_expired, none, none⟩

/-- Outcome of (part of) one sweeper iteration: final store and registry, the
`room_expired` deliveries, the force-closed channels, and whether the
iteration aborted with an exception (caught at the `while` level). -/
structure SweepResult where
  store : Store
  reg : Registry
  evs : List Delivery
  closes : List (RoomId × Peer)
  raised : Bool

/-- Processing of one expired room (loop body of `cleanup_old_rooms`, lines
148-176): mark the durable record inactive, delete the room's messages, and
when the room is live broadcast `room_expired`, close every channel and delete
the registry entry. When every send fails, `broadcast` itself evicts the room
and the subsequent `self.active_rooms[room_id]` lookup raises `KeyError`
(`raised := true`), aborting the rest of the iteration. -/
def expireRoom (st : Store) (reg : Registry) (rid : RoomId) (sendOk : Peer → Bool) :
    SweepResult :=
  let st1 := st.markRoomInactive rid
  let st2 := (st1.deleteMessagesForRoom rid).1
  match reg.active_rooms rid with
  | none => ⟨st2, reg, [], [], false⟩
  | some _ =>
    let bc := broadcast reg roomExpiredEvent rid none sendOk
    match bc.1.active_rooms rid with
    | none => ⟨st2, bc.1, bc.2, [], true⟩
    | some ps =>
      ⟨st2,
       { bc.1 with
         active_rooms := fun r => if r = rid then none else bc.1.active_rooms r
         room_created_at := fun r => if r = rid then none else bc.1.room_created_at r },
       bc.2, ps.map (fun p => (rid, p)), false⟩

/-- Sequential processing of the expired batch; an exception stops the
remaining rooms of this iteration (state mutated so far persists). -/
def sweepRooms (st : Store) (reg : Registry) (rids : List RoomId)
    (sendOk : Peer → Bool) : SweepResult :=
  match rids with
  | [] => ⟨st, reg, [], [], false⟩
  | rid :: rest =>
    let R := expireRoom st reg rid sendOk
    if R.raised then R
    else
      let R2 := sweepRooms R.store R.reg rest sendOk
      ⟨R2.store, R2.reg, R.evs ++ R2.evs, R.closes ++ R2.closes, R2.raised⟩

/-- One iteration of the `cleanup_old_rooms` loop with the db up and the query
succeeding (lines 136-179). -/
def cleanup_old_rooms_once (st : Store) (reg : Registry) (now : Time)
    (sendOk : Peer → Bool) : SweepResult :=
  sweepRooms st reg ((expiredRooms st now).map RoomRec.room_id) sendOk

theorem mem_setInactiveFirst {l : List RoomRec} {rid : RoomId} {r : RoomRec}
    (hr : r ∈ setInactiveFirst l rid) :
    r ∈ l ∨ ∃ r0 ∈ l, r0.room_id = rid ∧ r = { r0 with active := false } := by
  induction l with
  | nil => cases hr
  | cons a t ih =>
    by_cases ha : a.room_id = rid
    · rw [setInactiveFirst, if_pos ha] at hr
      rcases List.mem_cons.mp hr with rfl | hrt
      · exact Or.inr ⟨a, List.mem_cons_self a t, ha, rfl⟩
      · exact Or.inl (List.mem_cons_of_mem a hrt)
    · rw [setInactiveFirst, if_neg ha] at hr
      rcases List.mem_cons.mp hr with rfl | hrt
      · exact Or.inl (List.mem_cons_self r t)
      · rcases ih hrt with h | ⟨r0, hr0, hid, heq⟩
        · exact Or.inl (List.mem_cons_of_mem a h)
        · exact Or.inr ⟨r0, List.mem_cons_of_mem a hr0, hid, heq⟩

theorem map_roomId_setInactiveFirst (l : List RoomRec) (rid : RoomId) :
    (setInactiveFirst l rid).map RoomRec.room_id = l.map RoomRec.room_id := by
  induction l with
  | nil => rfl
  | cons a t ih =>
    by_cases ha : a.room_id = rid
    · rw [setInactiveFirst, if_pos ha]
      simp
    · rw [setInactiveFirst, if_neg ha]
      simp [ih]

theorem setInactiveFirst_inactive {l : List RoomRec} (hnd : (l.map RoomRec.room_id).Nodup)
    (rid : RoomId) :
    ∀ r ∈ setInactiveFirst l rid, r.room_id = rid → r.active = false := by
  induction l with
  | nil => intro r hr; cases hr
  | cons a t ih =>
    rw [List.map_cons, List.nodup_cons] at hnd
    rcases hnd with ⟨ha, ht⟩
    intro r hr hrid
    by_cases hac : a.room_id = rid
    · rw [setInactiveFirst, if_pos hac] at hr
      rcases List.mem_cons.mp hr with rfl | hrt
      · rfl
      · have hmem : a.room_id ∈ t.map RoomRec.room_id := by
          rw [hac, ← hrid]
          exact List.mem_map_of_mem RoomRec.room_id hrt
        exact absurd hmem ha
    · rw [setInactiveFirst, if_neg hac] at hr
      rcases List.mem_cons.mp hr with rfl | hrt
      · exact absurd hrid hac
      · exact ih ht r hrt hrid

theorem disconnect_preserves_none (reg : Registry) (ws : Peer) (rid0 r : RoomId)
    (h : reg.active_rooms r = none) : (disconnect reg ws rid0).active_rooms r = none := by
  rw [disconnect_active]
  rcases hrm : reg.active_rooms rid0 with _ | ps <;> simp only [hrm]
  · exact h
  · by_cases hr : r = rid0
    · rw [hr] at h
      rw [h] at hrm
      exact Option.noConfusion hrm
    · rw [if_neg hr]
      exact h

theorem foldl_disconnect_preserves_none (l : List Peer) (reg : Registry) (rid0 r : RoomId)
    (h : reg.active_rooms r = none) :
    (l.foldl (fun rg c => disconnect rg c rid0) reg).active_rooms r = none := by
  induction l generalizing reg with
  | nil => exact h
  | cons a t ih => exact ih (disconnect reg a rid0) (disconnect_preserves_none reg a rid0 r h)

theorem broadcast_preserves_none (reg : Registry) (ev : OutEvent) (rid0 : RoomId)
    (exclude : Option Peer) (sendOk : Peer → Bool) (r : RoomId)
    (h : reg.active_rooms r = none) :
    (broadcast reg ev rid0 exclude sendOk).1.active_rooms r = none :=
  foldl_disconnect_preserves_none _ reg rid0 r h

theorem broadcast_reg_of_all_ok (reg : Registry) (ev : OutEvent) (rid : RoomId)
    (exclude : Option Peer) (sendOk : Peer → Bool) (hsend : ∀ p, sendOk p = true) :
    (broadcast reg ev rid exclude sendOk).1 = reg := by
  unfold broadcast
  have hf : (broadcastTargets reg rid exclude).filter (fun c => !(sendOk c)) = [] := by
    rw [List.filter_eq_nil_iff]
    intro a _
    simp [hsend a]
  simp only [hf, List.foldl_nil]

theorem broadcast_evs_of_all_ok (reg : Registry) (ev : OutEvent) (rid : RoomId)
    (sendOk : Peer → Bool) (ps : List Peer) (hps : reg.active_rooms rid = some ps)
    (hsend : ∀ p, sendOk p = true) :
    (broadcast reg ev rid none sendOk).2 = ps.map (fun c => (⟨c, rid, ev⟩ : Delivery)) := by
  unfold broadcast
  simp only
  rw [broadcastTargets_of_none reg rid ps hps]
  have hd : ps.filter sendOk = ps := List.filter_eq_self.mpr (fun a _ => hsend a)
  rw [hd]

theorem expireRoom_store (st : Store) (reg : Registry) (rid : RoomId)
    (sendOk : Peer → Bool) :
    (expireRoom st reg rid sendOk).store =
      ⟨setInactiveFirst st.rooms rid, st.messages.filter (fun m => m.room_id != rid)⟩ := by
  unfold expireRoom
  rcases hrm : reg.active_rooms rid with _ | ps <;> simp only [hrm]
  · rfl
  · rcases hbc : (broadcast reg roomExpiredEvent rid none sendOk).1.active_rooms rid
      with _ | qs <;> simp only [hbc] <;> rfl

theorem expireRoom_evs_room (st : Store) (reg : Registry) (rid : RoomId)
    (sendOk : Peer → Bool) :
    ∀ d ∈ (expireRoom st reg rid sendOk).evs, d.room = rid := by
  intro d hd
  unfold expireRoom at hd
  rcases hrm : reg.active_rooms rid with _ | ps <;> simp only [hrm] at hd
  · cases hd
  · rcases hbc : (broadcast reg roomExpiredEvent rid none sendOk).1.active_rooms rid
      with _ | qs <;> simp only [hbc] at hd <;>
      exact (mem_broadcast_deliveries _ _ _ _ _ hd).2.2.1

theorem expireRoom_preserves_none (st : Store) (reg : Registry) (rid0 : RoomId)
    (sendOk : Peer → Bool) (r : RoomId) (h : reg.active_rooms r = none) :
    (expireRoom st reg rid0 sendOk).reg.active_rooms r = none := by
  unfold expireRoom
  rcases hrm : reg.active_rooms rid0 with _ | ps <;> simp only [hrm]
  · exact h
  · have hb := broadcast_preserves_none reg roomExpiredEvent rid0 none sendOk r h
    rcases hbc : (broadcast reg roomExpiredEvent rid0 none sendOk).1.active_rooms rid0
      with _ | qs <;> simp only [hbc]
    · exact hb
    · by_cases hr : r = rid0
      · simp [hr]
      · simp only [if_neg hr]
        exact hb

theorem expireRoom_all_ok (st : Store) (reg : Registry) (rid : RoomId)
    (sendOk : Peer → Bool) (hsend : ∀ p, sendOk p = true) :
    (expireRoom st reg rid sendOk).raised = false ∧
    (expireRoom st reg rid sendOk).reg.active_rooms rid = none ∧
    (∀ r, r ≠ rid → (expireRoom st reg rid sendOk).reg.active_rooms r = reg.active_rooms r) ∧
    ((expireRoom st reg rid sendOk).evs =
      match reg.active_rooms rid with
      | none => []
      | some ps => ps.map (fun p => (⟨p, rid, roomExpiredEvent⟩ : Delivery))) ∧
    ((expireRoom st reg rid sendOk).closes =
      match reg.active_rooms rid with
      | none => []
      | some ps => ps.map (fun p => (rid, p))) := by
  rcases hrm : reg.active_rooms rid with _ | ps
  · refine ⟨?_, ?_, ?_, ?_, ?_⟩
    · unfold expireRoom
      simp [hrm]
    · unfold expireRoom
      simp [hrm]
    · intro r hr
      unfold expireRoom
      simp [hrm]
    · unfold expireRoom
      simp [hrm]
    · unfold expireRoom
      simp [hrm]
  · have hb1 : (broadcast reg roomExpiredEvent rid none sendOk).1 = reg :=
      broadcast_reg_of_all_ok reg roomExpiredEvent rid none sendOk hsend
    have hbev := broadcast_evs_of_all_ok reg roomExpiredEvent rid sendOk ps hrm hsend
    refine ⟨?_, ?_, ?_, ?_, ?_⟩
    · unfold expireRoom
      simp [hrm, hb1]
    · unfold expireRoom
      simp [hrm, hb1]
    · intro r hr
      unfold expireRoom
      simp [hrm, hb1, hr]
    · unfold expireRoom
      simp [hrm, hb1, hbev]
    · unfold expireRoom
      simp [hrm, hb1]

theorem sweepRooms_raised_false (rids : List RoomId) (st : Store) (reg : Registry)
    (sendOk : Peer → Bool) (hsend : ∀ p, sendOk p = true) :
    (sweepRooms st reg rids sendOk).raised = false := by
  induction rids generalizing st reg with
  | nil => rfl
  | cons a t ih =>
    have hra := (expireRoom_all_ok st reg a sendOk hsend).1
    unfold sweepRooms
    simp only [hra, Bool.false_eq_true, if_false]
    exact ih _ _

theorem sweepRooms_evs_room (rids : List RoomId) (st : Store) (reg : Registry)
    (sendOk : Peer → Bool) :
    ∀ d ∈ (sweepRooms st reg rids sendOk).evs, d.room ∈ rids := by
  induction rids generalizing st reg with
  | nil =>
    intro d hd
    cases hd
  | cons a t ih =>
    intro d hd
    unfold sweepRooms at hd
    by_cases hr : (expireRoom st reg a sendOk).raised
    · simp only [hr, if_true] at hd
      rw [expireRoom_evs_room st reg a sendOk d hd]
      exact List.mem_cons_self a t
    · simp only [hr, if_false] at hd
      rcases List.mem_append.mp hd with h1 | h2
      · rw [expireRoom_evs_room st reg a sendOk d h1]
        exact List.mem_cons_self a t
      · exact List.mem_cons_of_mem a (ih _ _ d h2)

theorem sweepRooms_nil (st : Store) (reg : Registry) (sendOk : Peer → Bool) :
    sweepRooms st reg [] sendOk = ⟨st, reg, [], [], false⟩ := rfl

theorem sweepRooms_cons (st : Store) (reg : Registry) (a : RoomId) (rest : List RoomId)
    (sendOk : Peer → Bool) :
    sweepRooms st reg (a :: rest) sendOk =
      (if (expireRoom st reg a sendOk).raised then expireRoom st reg a sendOk
       else
         ⟨(sweepRooms (expireRoom st reg a sendOk).store (expireRoom st reg a sendOk).reg
             rest sendOk).store,
          (sweepRooms (expireRoom st reg a sendOk).store (expireRoom st reg a sendOk).reg
             rest sendOk).reg,
          (expireRoom st reg a sendOk).evs ++
            (sweepRooms (expireRoom st reg a sendOk).store (expireRoom st reg a sendOk).reg
              rest sendOk).evs,
          (expireRoom st reg a sendOk).closes ++
            (sweepRooms (expireRoom st reg a sendOk).store (expireRoom st reg a sendOk).reg
              rest sendOk).closes,
          (sweepRooms (expireRoom st reg a sendOk).store (expireRoom st reg a sendOk).reg
            rest sendOk).raised⟩) := rfl

theorem sweepRooms_reg_not_mem (rids : List RoomId) (st : Store) (reg : Registry)
    (sendOk : Peer → Bool) (hsend : ∀ p, sendOk p = true) :
    ∀ r, r ∉ rids →
      (sweepRooms st reg rids sendOk).reg.active_rooms r = reg.active_rooms r := by
  induction rids generalizing st reg with
  | nil =>
    intro r _
    rfl
  | cons a t ih =>
    intro r hr
    have hra := (expireRoom_all_ok st reg a sendOk hsend).1
    have hne : r ≠ a := fun h => hr (h ▸ List.mem_cons_self a t)
    have hpre := (expireRoom_all_ok st reg a sendOk hsend).2.2.1 r hne
    rw [sweepRooms_cons]
    simp only [hra, Bool.false_eq_true, if_false]
    rw [ih _ _ r (fun h => hr (List.mem_cons_of_mem a h))]
    exact hpre

theorem sweepRooms_preserves_none (rids : List RoomId) (st : Store) (reg : Registry)
    (sendOk : Peer → Bool) (r : RoomId) (h : reg.active_rooms r = none) :
    (sweepRooms st reg rids sendOk).reg.active_rooms r = none := by
  induction rids generalizing st reg with
  | nil => exact h
  | cons a t ih =>
    rw [sweepRooms_cons]
    by_cases hra : (expireRoom st reg a sendOk).raised
    · simp only [hra, if_true]
      exact expireRoom_preserves_none st reg a sendOk r h
    · simp only [hra, Bool.false_eq_true, if_false]
      exact ih _ _ (expireRoom_preserves_none st reg a sendOk r h)

theorem sweepRooms_store_rooms_fact (rids : List RoomId) (st : Store) (reg : Registry)
    (sendOk : Peer → Bool) (rid : RoomId)
    (h : ∀ r ∈ st.rooms, r.room_id = rid → r.active = false) :
    ∀ r ∈ (sweepRooms st reg rids sendOk).store.rooms, r.room_id = rid → r.active = false := by
  induction rids generalizing st reg with
  | nil => exact h
  | cons a t ih =>
    have hstep : ∀ r ∈ (expireRoom st reg a sendOk).store.rooms,
        r.room_id = rid → r.active = false := by
      intro r hr hrid
      rw [expireRoom_store] at hr
      rcases mem_setInactiveFirst hr with hmem | ⟨r0, _, _, rfl⟩
      · exact h r hmem hrid
      · rfl
    rw [sweepRooms_cons]
    by_cases hra : (expireRoom st reg a sendOk).raised
    · simp only [hra, if_true]
      exact hstep
    · simp only [hra, Bool.false_eq_true, if_false]
      exact ih _ _ hstep

theorem sweepRooms_store_msgs_fact (rids : List RoomId) (st : Store) (reg : Registry)
    (sendOk : Peer → Bool) (rid : RoomId)
    (h : ∀ m ∈ st.messages, m.room_id ≠ rid) :
    ∀ m ∈ (sweepRooms st reg rids sendOk).store.messages, m.room_id ≠ rid := by
  induction rids generalizing st reg with
  | nil => exact h
  | cons a t ih =>
    have hstep : ∀ m ∈ (expireRoom st reg a sendOk).store.messages, m.room_id ≠ rid := by
      intro m hm
      rw [expireRoom_store] at hm
      exact h m (List.mem_of_mem_filter hm)
    rw [sweepRooms_cons]
    by_cases hra : (expireRoom st reg a sendOk).raised
    · simp only [hra, if_true]
      exact hstep
    · simp only [hra, Bool.false_eq_true, if_false]
      exact ih _ _ hstep

theorem sweepRooms_store_roomIds (rids : List RoomId) (st : Store) (reg : Registry)
    (sendOk : Peer → Bool) :
    (sweepRooms st reg rids sendOk).store.rooms.map RoomRec.room_id =
      st.rooms.map RoomRec.room_id := by
  induction rids generalizing st reg with
  | nil => rfl
  | cons a t ih =>
    have hstep : (expireRoom st reg a sendOk).store.rooms.map RoomRec.room_id =
        st.rooms.map RoomRec.room_id := by
      rw [expireRoom_store]
      exact map_roomId_setInactiveFirst st.rooms a
    rw [sweepRooms_cons]
    by_cases hra : (expireRoom st reg a sendOk).raised
    · simp only [hra, if_true]
      exact hstep
    · simp only [hra, Bool.false_eq_true, if_false]
      rw [ih _ _, hstep]

theorem sweepRooms_append (l1 l2 : List RoomId) (st : Store) (reg : Registry)
    (sendOk : Peer → Bool) (hsend : ∀ p, sendOk p = true) :
    sweepRooms st reg (l1 ++ l2) sendOk =
      ⟨(sweepRooms (sweepRooms st reg l1 sendOk).store (sweepRooms st reg l1 sendOk).reg
          l2 sendOk).store,
       (sweepRooms (sweepRooms st reg l1 sendOk).store (sweepRooms st reg l1 sendOk).reg
          l2 sendOk).reg,
       (sweepRooms st reg l1 sendOk).evs ++
         (sweepRooms (sweepRooms st reg l1 sendOk).store (sweepRooms st reg l1 sendOk).reg
           l2 sendOk).evs,
       (sweepRooms st reg l1 sendOk).closes ++
         (sweepRooms (sweepRooms st reg l1 sendOk).store (sweepRooms st reg l1 sendOk).reg
           l2 sendOk).closes,
       (sweepRooms (sweepRooms st reg l1 sendOk).store (sweepRooms st reg l1 sendOk).reg
         l2 sendOk).raised⟩ := by
  induction l1 generalizing st reg with
  | nil => simp [sweepRooms_nil]
  | cons a t ih =>
    have hra := (expireRoom_all_ok st reg a sendOk hsend).1
    rw [List.cons_append, sweepRooms_cons, sweepRooms_cons st reg a t sendOk]
    simp only [hra, Bool.false_eq_true, if_false]
    rw [ih _ _]
    simp [List.append_assoc]

theorem count_delivery_map_eq_one (ps : List Peer) (rid : RoomId) (ev : OutEvent)
    (p : Peer) (hnd : ps.Nodup) (hp : p ∈ ps) :
    (ps.map (fun c => (⟨c, rid, ev⟩ : Delivery))).count ⟨p, rid, ev⟩ = 1 := by
  induction ps with
  | nil => cases hp
  | cons a t ih =>
    rcases List.nodup_cons.mp hnd with ⟨ha, ht⟩
    rcases List.mem_cons.mp hp with rfl | hpt
    · have h0 : (t.map (fun c => (⟨c, rid, ev⟩ : Delivery))).count ⟨p, rid, ev⟩ = 0 := by
        rw [List.count_eq_zero]
        intro hmem
        rcases List.mem_map.mp hmem with ⟨c, hc, hceq⟩
        cases hceq
        exact ha hc
      rw [List.map_cons, List.count_cons, h0]
      simp
    · have hap : p ≠ a := fun h => ha (h ▸ hpt)
      rw [List.map_cons, List.count_cons, ih ht hpt]
      simp [hap, Ne.symm hap]

theorem count_delivery_zero_of_room_ne (evs : List Delivery) (p : Peer) (rid : RoomId)
    (ev : OutEvent) (h : ∀ d ∈ evs, d.room ≠ rid) :
    evs.count ⟨p, rid, ev⟩ = 0 := by
  rw [List.count_eq_zero]
  intro hmem
  exact h _ hmem rfl

/-- C6: every room the sweeper's query returns as expired has its durable
record marked inactive and all its durable messages deleted — also when it has
no live peers; when it is live in the registry, each of its peers receives
exactly one `room_expired` delivery, every peer's channel is force-closed, and
the room is absent from the registry after the run. Hypotheses: every send
succeeds (a peer whose channel is dead cannot "receive"), the store's room ids
are unique (Mongo unique index on `room_id`), and the registry's peer list for
the room is duplicate-free (it embeds a Python set). -/
theorem sweeper_expires_rooms (st : Store) (reg : Registry) (now : Time)
    (sendOk : Peer → Bool) (rid : RoomId)
    (hsend : ∀ p, sendOk p = true)
    (hnd : (st.rooms.map RoomRec.room_id).Nodup)
    (hregnd : ∀ qs, reg.active_rooms rid = some qs → qs.Nodup)
    (hmem : rid ∈ (expiredRooms st now).map RoomRec.room_id) :
    (∀ r ∈ (cleanup_old_rooms_once st reg now sendOk).store.rooms,
        r.room_id = rid → r.active = false) ∧
    (∀ m ∈ (cleanup_old_rooms_once st reg now sendOk).store.messages,
        m.room_id ≠ rid) ∧
    (∀ ps, reg.active_rooms rid = some ps →
      (∀ p ∈ ps, (cleanup_old_rooms_once st reg now sendOk).evs.count
          ⟨p, rid, roomExpiredEvent⟩ = 1) ∧
      (∀ p ∈ ps, (rid, p) ∈ (cleanup_old_rooms_once st reg now sendOk).closes) ∧
      (cleanup_old_rooms_once st reg now sendOk).reg.active_rooms rid = none) := by
  have hndr : ((expiredRooms st now).map RoomRec.room_id).Nodup := by
    have hsub : (expiredRooms st now).Sublist st.rooms := by
      unfold expiredRooms
      exact (List.take_sublist _ _).trans (List.filter_sublist st.rooms)
    exact hnd.sublist (hsub.map RoomRec.room_id)
  obtain ⟨l1, l2, hsplit⟩ := List.append_of_mem hmem
  rw [hsplit] at hndr
  obtain ⟨hnd1, hnd2, hdisj⟩ := List.nodup_append.mp hndr
  have hrid1 : rid ∉ l1 := fun h => hdisj h (List.mem_cons_self rid l2)
  have hrid2 : rid ∉ l2 := (List.nodup_cons.mp hnd2).1
  have hEr : (expireRoom (sweepRooms st reg l1 sendOk).store
      (sweepRooms st reg l1 sendOk).reg rid sendOk).raised = false :=
    (expireRoom_all_ok _ _ _ _ hsend).1
  have hC : sweepRooms (sweepRooms st reg l1 sendOk).store
      (sweepRooms st reg l1 sendOk).reg (rid :: l2) sendOk =
      ⟨(sweepRooms (expireRoom (sweepRooms st reg l1 sendOk).store
          (sweepRooms st reg l1 sendOk).reg rid sendOk).store
          (expireRoom (sweepRooms st reg l1 sendOk).store
            (sweepRooms st reg l1 sendOk).reg rid sendOk).reg l2 sendOk).store,
       (sweepRooms (expireRoom (sweepRooms st reg l1 sendOk).store
          (sweepRooms st reg l1 sendOk).reg rid sendOk).store
          (expireRoom (sweepRooms st reg l1 sendOk).store
            (sweepRooms st reg l1 sendOk).reg rid sendOk).reg l2 sendOk).reg,
       (expireRoom (sweepRooms st reg l1 sendOk).store
          (sweepRooms st reg l1 sendOk).reg rid sendOk).evs ++
         (sweepRooms (expireRoom (sweepRooms st reg l1 sendOk).store
            (sweepRooms st reg l1 sendOk).reg rid sendOk).store
            (expireRoom (sweepRooms st reg l1 sendOk).store
              (sweepRooms st reg l1 sendOk).reg rid sendOk).reg l2 sendOk).evs,
       (expireRoom (sweepRooms st reg l1 sendOk).store
          (sweepRooms st reg l1 sendOk).reg rid sendOk).closes ++
         (sweepRooms (expireRoom (sweepRooms st reg l1 sendOk).store
            (sweepRooms st reg l1 sendOk).reg rid sendOk).store
            (expireRoom (sweepRooms st reg l1 sendOk).store
              (sweepRooms st reg l1 sendOk).reg rid sendOk).reg l2 sendOk).closes,
       (sweepRooms (expireRoom (sweepRooms st reg l1 sendOk).store
          (sweepRooms st reg l1 sendOk).reg rid sendOk).store
          (expireRoom (sweepRooms st reg l1 sendOk).store
            (sweepRooms st reg l1 sendOk).reg rid sendOk).reg l2 sendOk).raised⟩ := by
    rw [sweepRooms_cons]
    simp only [hEr, Bool.false_eq_true, if_false]
  have hAll : cleanup_old_rooms_once st reg now sendOk =
      ⟨(sweepRooms (expireRoom (sweepRooms st reg l1 sendOk).store
          (sweepRooms st reg l1 sendOk).reg rid sendOk).store
          (expireRoom (sweepRooms st reg l1 sendOk).store
            (sweepRooms st reg l1 sendOk).reg rid sendOk).reg l2 sendOk).store,
       (sweepRooms (expireRoom (sweepRooms st reg l1 sendOk).store
          (sweepRooms st reg l1 sendOk).reg rid sendOk).store
          (expireRoom (sweepRooms st reg l1 sendOk).store
            (sweepRooms st reg l1 sendOk).reg rid sendOk).reg l2 sendOk).reg,
       (sweepRooms st reg l1 sendOk).evs ++
         ((expireRoom (sweepRooms st reg l1 sendOk).store
            (sweepRooms st reg l1 sendOk).reg rid sendOk).evs ++
          (sweepRooms (expireRoom (sweepRooms st reg l1 sendOk).store
            (sweepRooms st reg l1 sendOk).reg rid sendOk).store
            (expireRoom (sweepRooms st reg l1 sendOk).store
              (sweepRooms st reg l1 sendOk).reg rid sendOk).reg l2 sendOk).evs),
       (sweepRooms st reg l1 sendOk).closes ++
         ((expireRoom (sweepRooms st reg l1 sendOk).store
            (sweepRooms st reg l1 sendOk).reg rid sendOk).closes ++
          (sweepRooms (expireRoom (sweepRooms st reg l1 sendOk).store
            (sweepRooms st reg l1 sendOk).reg rid sendOk).store
            (expireRoom (sweepRooms st reg l1 sendOk).store
              (sweepRooms st reg l1 sendOk).reg rid sendOk).reg l2 sendOk).closes),
       (sweepRooms (expireRoom (sweepRooms st reg l1 sendOk).store
          (sweepRooms st reg l1 sendOk).reg rid sendOk).store
          (expireRoom (sweepRooms st reg l1 sendOk).store
            (sweepRooms st reg l1 sendOk).reg rid sendOk).reg l2 sendOk).raised⟩ := by
    unfold cleanup_old_rooms_once
    rw [hsplit, sweepRooms_append l1 (rid :: l2) st reg sendOk hsend, hC]
  have hndA : ((sweepRooms st reg l1 sendOk).store.rooms.map RoomRec.room_id).Nodup := by
    rw [sweepRooms_store_roomIds]
    exact hnd
  have hstepRooms : ∀ r ∈ (expireRoom (sweepRooms st reg l1 sendOk).store
      (sweepRooms st reg l1 sendOk).reg rid sendOk).store.rooms,
      r.room_id = rid → r.active = false := by
    intro r hr hrid
    rw [expireRoom_store] at hr
    exact setInactiveFirst_inactive hndA rid r hr hrid
  have hstepMsgs : ∀ m ∈ (expireRoom (sweepRooms st reg l1 sendOk).store
      (sweepRooms st reg l1 sendOk).reg rid sendOk).store.messages,
      m.room_id ≠ rid := by
    intro m hm
    rw [expireRoom_store] at hm
    have := (List.mem_filter.mp hm).2
    simpa using this
  rw [hAll]
  refine ⟨?_, ?_, ?_⟩
  · exact sweepRooms_store_rooms_fact l2 _ _ sendOk rid hstepRooms
  · exact sweepRooms_store_msgs_fact l2 _ _ sendOk rid hstepMsgs
  · intro ps hps
    have hAreg : (sweepRooms st reg l1 sendOk).reg.active_rooms rid = some ps := by
      rw [sweepRooms_reg_not_mem l1 st reg sendOk hsend rid hrid1]
      exact hps
    have hEfacts := expireRoom_all_ok (sweepRooms st reg l1 sendOk).store
      (sweepRooms st reg l1 sendOk).reg rid sendOk hsend
    have hEevs := hEfacts.2.2.2.1
    rw [hAreg] at hEevs
    simp only at hEevs
    have hEcloses := hEfacts.2.2.2.2
    rw [hAreg] at hEcloses
    simp only at hEcloses
    have hEreg := hEfacts.2.1
    refine ⟨?_, ?_, ?_⟩
    · intro p hp
      rw [List.count_append, List.count_append]
      have c1 : (sweepRooms st reg l1 sendOk).evs.count ⟨p, rid, roomExpiredEvent⟩ = 0 :=
        count_delivery_zero_of_room_ne _ _ _ _
          (fun d hd hroom => hrid1 (hroom ▸ sweepRooms_evs_room l1 st reg sendOk d hd))
      have c3 : (sweepRooms (expireRoom (sweepRooms st reg l1 sendOk).store
          (sweepRooms st reg l1 sendOk).reg rid sendOk).store
          (expireRoom (sweepRooms st reg l1 sendOk).store
            (sweepRooms st reg l1 sendOk).reg rid sendOk).reg l2 sendOk).evs.count
          ⟨p, rid, roomExpiredEvent⟩ = 0 :=
        count_delivery_zero_of_room_ne _ _ _ _
          (fun d hd hroom => hrid2 (hroom ▸ sweepRooms_evs_room l2 _ _ sendOk d hd))
      have c2 : (expireRoom (sweepRooms st reg l1 sendOk).store
          (sweepRooms st reg l1 sendOk).reg rid sendOk).evs.count
          ⟨p, rid, roomExpiredEvent⟩ = 1 := by
        rw [hEevs]
        exact count_delivery_map_eq_one ps rid roomExpiredEvent p (hregnd ps hps) hp
      rw [c1, c2, c3]
    · intro p hp
      apply List.mem_append.mpr
      right
      apply List.mem_append.mpr
      left
      rw [hEcloses]
      exact List.mem_map.mpr ⟨p, hp, rfl⟩
    · exact sweepRooms_preserves_none l2 _ _ sendOk rid hEreg

/-- Sample store for the sweeper: room 7 expired at t=10 and still active,
with one message in room 7. -/
def stEx6 : Store :=
  ⟨[⟨7, 0, 10, true⟩], [⟨5, 7, "alice", false, none, 0, none⟩]⟩

theorem sweeper_expires_rooms_witness :
    (∀ p : Peer, (fun _ => true) p = true) ∧
    (stEx6.rooms.map RoomRec.room_id).Nodup ∧
    (∀ qs, regEx.active_rooms 7 = some qs → qs.Nodup) ∧
    7 ∈ (expiredRooms stEx6 100).map RoomRec.room_id ∧
    ((∀ r ∈ (cleanup_old_rooms_once stEx6 regEx 100 (fun _ => true)).store.rooms,
        r.room_id = 7 → r.active = false) ∧
     (∀ m ∈ (cleanup_old_rooms_once stEx6 regEx 100 (fun _ => true)).store.messages,
        m.room_id ≠ 7) ∧
     (∀ ps, regEx.active_rooms 7 = some ps →
       (∀ p ∈ ps, (cleanup_old_rooms_once stEx6 regEx 100 (fun _ => true)).evs.count
           ⟨p, 7, roomExpiredEvent⟩ = 1) ∧
       (∀ p ∈ ps, (7, p) ∈ (cleanup_old_rooms_once stEx6 regEx 100 (fun _ => true)).closes) ∧
       (cleanup_old_rooms_once stEx6 regEx 100 (fun _ => true)).reg.active_rooms 7 = none)) :=
  ⟨fun _ => rfl, by decide,
   fun qs h => by
     rw [show regEx.active_rooms 7 = some [1, 2, 3] from by decide] at h
     obtain rfl : ([1, 2, 3] : List Peer) = qs := Option.some.inj h
     decide,
   by decide,
   sweeper_expires_rooms stEx6 regEx 100 (fun _ => true) 7 (fun _ => rfl) (by decide)
     (fun qs h => by
       rw [show regEx.active_rooms 7 = some [1, 2, 3] from by decide] at h
       obtain rfl : ([1, 2, 3] : List Peer) = qs := Option.some.inj h
       decide)
     (by decide)⟩

/-- A Python JSON value in the `data` slot of an inbound `message` event,
abstracted to what the validation inspects: a dict with its key list, or a
non-dict value with its truthiness. -/
inductive DataVal
  | dict (keys : List String)
  | nonDict (truthy : Bool)
deriving DecidableEq, Repr

/-- The validation of lines 402-406: `encrypted_data = message_data.get("data",
{})` must be truthy (nonempty dict), a dict, and hold both the `encrypted` and
`iv` keys; otherwise the event is dropped with `continue`. -/
def validEncryptedData : DataVal → Bool
  | .dict keys => !keys.isEmpty && keys.contains "encrypted" && keys.contains "iv"
  | .nonDict _ => false

/-- An inbound `message` event envelope, projected to the consulted fields. -/
structure InMessage where
  data : Option DataVal
  username : Option String
  selfDestruct : Bool
  destructTime : Option Int

/-- Result of the `message` branch of the dispatcher loop. -/
structure MessageResult where
  store : Store
  reg : Registry
  tasks : List MsgId
  evs : List Delivery
  inserted : Option MsgId
  armed : Option MsgId

/-- The `elif message_type == "message"` branch (lines 401-454): validate the
payload (dropping silently when invalid), compute the self-destruct window,
attempt the insert (`insertOutcome` is the store's response: `some mid` when
`insert_one` succeeds and assigns `mid`, `none` when it raises — caught and
logged, `inserted_id` stays `None`; `dbUp = false` skips the attempt), then
broadcast with `message_id = inserted_id`, and finally arm the timer and
record its task only when the message self-destructs and an id exists
(`if self_destruct and inserted_id`). -/
def handle_message_event (st : Store) (reg : Registry) (tasks : List MsgId)
    (rid : RoomId) (current_username : String) (ev : InMessage) (now : Time)
    (dbUp : Bool) (insertOutcome : Option MsgId) (sendOk : Peer → Bool) :
    MessageResult :=
  let encrypted_data := ev.data.getD (.dict [])
  if validEncryptedData encrypted_data then
    let self_destruct := ev.selfDestruct
    let seconds := computeDestructSeconds self_destruct ev.destructTime
    let username := ev.username.getD current_username
    let ins :=
      if dbUp then
        match insertOutcome with
        | some mid =>
          ({ st with messages := st.messages ++
              [⟨mid, rid, username, self_destruct, seconds, now,
                seconds.map (fun s => destructAt now s)⟩] }, some mid)
        | none => (st, none)
      else (st, none)
    let bc := broadcast reg ⟨.message, ins.2, some username⟩ rid none sendOk
    match ins.2 with
    | some mid =>
      if self_destruct then ⟨ins.1, bc.1, tasks ++ [mid], bc.2, ins.2, some mid⟩
      else ⟨ins.1, bc.1, tasks, bc.2, ins.2, none⟩
    | none => ⟨ins.1, bc.1, tasks, bc.2, ins.2, none⟩
  else ⟨st, reg, tasks, [], none, none⟩

/-- C7: an inbound `message` event whose payload is absent, not an object, or
missing the ciphertext (`encrypted`) or `iv` field is silently dropped: store,
registry and task map are untouched, nothing is broadcast (in particular no
error event reaches the sender), no timer is armed, and the branch is a bare
`continue` — no exception, so the receive loop and the connection stay open. -/
theorem invalid_message_dropped (st : Store) (reg : Registry) (tasks : List MsgId)
    (rid : RoomId) (current_username : String) (ev : InMessage) (now : Time)
    (dbUp : Bool) (insertOutcome : Option MsgId) (sendOk : Peer → Bool)
    (hinv : validEncryptedData (ev.data.getD (.dict [])) = false) :
    handle_message_event st reg tasks rid current_username ev now dbUp insertOutcome
      sendOk = ⟨st, reg, tasks, [], none, none⟩ := by
  unfold handle_message_event
  simp [hinv]

theorem invalid_message_dropped_witness :
    validEncryptedData ((some (DataVal.dict ["encrypted"])).getD (.dict [])) = false ∧
    handle_message_event stEx regEx [] 7 "Anonymous"
      ⟨some (.dict ["encrypted"]), none, false, none⟩ 0 true (some 9) (fun _ => true) =
      ⟨stEx, regEx, [], [], none, none⟩ :=
  ⟨by decide,
   invalid_message_dropped stEx regEx [] 7 "Anonymous"
     ⟨some (.dict ["encrypted"]), none, false, none⟩ 0 true (some 9) (fun _ => true)
     (by decide)⟩

theorem handle_message_event_shape (st : Store) (reg : Registry) (tasks : List MsgId)
    (rid : RoomId) (cu : String) (ev : InMessage) (now : Time)
    (dbUp : Bool) (ins : Option MsgId) (sendOk : Peer → Bool)
    (hval : validEncryptedData (ev.data.getD (.dict [])) = true) :
    (handle_message_event st reg tasks rid cu ev now dbUp ins sendOk).inserted =
      (if dbUp then ins else none) ∧
    (handle_message_event st reg tasks rid cu ev now dbUp ins sendOk).evs =
      (broadcast reg
        ⟨.message, (handle_message_event st reg tasks rid cu ev now dbUp ins
          sendOk).inserted, some (ev.username.getD cu)⟩ rid none sendOk).2 := by
  unfold handle_message_event
  rw [if_pos hval]
  rcases dbUp with _ | _
  · simp
  · rcases ins with _ | mid
    · simp
    · by_cases hsd : ev.selfDestruct = true <;> simp [hsd]

/-- C8: for a valid inbound message the broadcast is built strictly after the
insertion attempt — every delivery carries exactly the `message_id` that
attempt produced, and delivery reaches every non-failing peer of the room with
that id — and a failed insertion (db down, or `insert_one` raising) does not
block it: the message is still broadcast, carrying a null `message_id`, and
the store is left unchanged. -/
theorem broadcast_after_insert_attempt (st : Store) (reg : Registry) (tasks : List MsgId)
    (rid : RoomId) (current_username : String) (ev : InMessage) (now : Time)
    (dbUp : Bool) (insertOutcome : Option MsgId) (sendOk : Peer → Bool)
    (hval : validEncryptedData (ev.data.getD (.dict [])) = true) :
    (∀ d ∈ (handle_message_event st reg tasks rid current_username ev now dbUp
        insertOutcome sendOk).evs,
      d.event = ⟨.message,
        (handle_message_event st reg tasks rid current_username ev now dbUp
          insertOutcome sendOk).inserted,
        some (ev.username.getD current_username)⟩) ∧
    (∀ p ∈ broadcastTargets reg rid none, sendOk p = true →
      (⟨p, rid, ⟨.message,
        (handle_message_event st reg tasks rid current_username ev now dbUp
          insertOutcome sendOk).inserted,
        some (ev.username.getD current_username)⟩⟩ : Delivery) ∈
        (handle_message_event st reg tasks rid current_username ev now dbUp
          insertOutcome sendOk).evs) ∧
    (dbUp = false ∨ insertOutcome = none →
      (handle_message_event st reg tasks rid current_username ev now dbUp
        insertOutcome sendOk).store = st ∧
      (handle_message_event st reg tasks rid current_username ev now dbUp
        insertOutcome sendOk).inserted = none) := by
  obtain ⟨hins, hevs⟩ := handle_message_event_shape st reg tasks rid current_username
    ev now dbUp insertOutcome sendOk hval
  refine ⟨?_, ?_, ?_⟩
  · intro d hd
    rw [hevs] at hd
    exact (mem_broadcast_deliveries _ _ _ _ _ hd).2.2.2
  · intro p hp hok
    rw [hevs]
    exact broadcast_delivers _ _ _ _ _ hp hok
  · intro hfail
    constructor
    · rcases hfail with rfl | rfl
      · unfold handle_message_event
        simp [hval]
      · rcases dbUp with _ | _ <;>
          · unfold handle_message_event
            simp [hval]
    · rw [hins]
      rcases hfail with rfl | rfl
      · simp
      · rcases dbUp with _ | _ <;> simp

theorem broadcast_after_insert_attempt_witness :
    validEncryptedData ((some (DataVal.dict ["encrypted", "iv"])).getD (.dict [])) = true ∧
    ((∀ d ∈ (handle_message_event stEx regEx [] 7 "Anonymous"
         ⟨some (.dict ["encrypted", "iv"]), some "bob", false, none⟩ 0 true none
         (fun _ => true)).evs,
       d.event = ⟨.message,
         (handle_message_event stEx regEx [] 7 "Anonymous"
           ⟨some (.dict ["encrypted", "iv"]), some "bob", false, none⟩ 0 true none
           (fun _ => true)).inserted,
         some ((some "bob").getD "Anonymous")⟩) ∧
     (∀ p ∈ broadcastTargets regEx 7 none, (fun _ => true) p = true →
       (⟨p, 7, ⟨.message,
         (handle_message_event stEx regEx [] 7 "Anonymous"
           ⟨some (.dict ["encrypted", "iv"]), some "bob", false, none⟩ 0 true none
           (fun _ => true)).inserted,
         some ((some "bob").getD "Anonymous")⟩⟩ : Delivery) ∈
         (handle_message_event stEx regEx [] 7 "Anonymous"
           ⟨some (.dict ["encrypted", "iv"]), some "bob", false, none⟩ 0 true none
           (fun _ => true)).evs) ∧
     (true = false ∨ (none : Option MsgId) = none →
       (handle_message_event stEx regEx [] 7 "Anonymous"
         ⟨some (.dict ["encrypted", "iv"]), some "bob", false, none⟩ 0 true none
         (fun _ => true)).store = stEx ∧
       (handle_message_event stEx regEx [] 7 "Anonymous"
         ⟨some (.dict ["encrypted", "iv"]), some "bob", false, none⟩ 0 true none
         (fun _ => true)).inserted = none)) :=
  ⟨by decide,
   broadcast_after_insert_attempt stEx regEx [] 7 "Anonymous"
     ⟨some (.dict ["encrypted", "iv"]), some "bob", false, none⟩ 0 true none
     (fun _ => true) (by decide)⟩

/-- The `join` branch (lines 353-365): record the display name (default
"Anonymous") for this websocket in `user_names`, update the loop's
`current_username`, and broadcast `user_joined` to the room (sender
included). -/
def handle_join (reg : Registry) (ws : Peer) (rid : RoomId) (username : Option String)
    (sendOk : Peer → Bool) : Registry × String × List Delivery :=
  let current_username := username.getD "Anonymous"
  let reg1 : Registry :=
    { reg with
      user_names := fun p => if p = ws then some current_username else reg.user_names p }
  let bc := broadcast reg1 ⟨.user_joined, none, some current_username⟩ rid none sendOk
  (bc.1, current_username, bc.2)

/-- The `except WebSocketDisconnect` handler (lines 456-467); the transport
raises `WebSocketDisconnect` for clean and errored closures alike. The peer is
removed via `disconnect`, then `user_left` is broadcast only when the loop's
`current_username` differs from the default "Anonymous". The Bool records
whether the broadcast call was made. -/
def on_ws_disconnect (reg : Registry) (ws : Peer) (rid : RoomId)
    (current_username : String) (sendOk : Peer → Bool) :
    Registry × List Delivery × Bool :=
  let reg1 := disconnect reg ws rid
  if current_username ≠ "Anonymous" then
    let bc := broadcast reg1 ⟨.user_left, none, some current_username⟩ rid none sendOk
    (bc.1, bc.2, true)
  else (reg1, [], false)

theorem broadcast_peersOf_subset (reg : Registry) (ev : OutEvent) (rid : RoomId)
    (exclude : Option Peer) (sendOk : Peer → Bool) (r : RoomId) (q : Peer)
    (hq : q ∈ peersOf (broadcast reg ev rid exclude sendOk).1 r) : q ∈ peersOf reg r := by
  simp only [broadcast] at hq
  exact peersOf_foldl_disconnect_subset _ reg rid r q hq

/-- C9 counterexample: peer 1 joins room 7 with the explicit username
"Anonymous". A display name is then set for the peer (`user_names 1 = some
"Anonymous"`), yet the disconnect handler broadcasts nothing, because the code
tests `current_username != "Anonymous"` rather than whether a name was set —
refuting the claimed "iff a display name had been set". -/
theorem user_left_iff_name_set_fails :
    (handle_join regEx 1 7 (some "Anonymous") (fun _ => true)).1.user_names 1 =
      some "Anonymous" ∧
    (handle_join regEx 1 7 (some "Anonymous") (fun _ => true)).2.1 = "Anonymous" ∧
    (on_ws_disconnect (handle_join regEx 1 7 (some "Anonymous") (fun _ => true)).1 1 7
      (handle_join regEx 1 7 (some "Anonymous") (fun _ => true)).2.1
      (fun _ => true)).2.2 = false := by
  refine ⟨?_, ?_, ?_⟩ <;> decide

/-- C9 (amended): on `WebSocketDisconnect` — raised by the transport for both
clean and errored closures — the handler always removes the peer from the
room via `disconnect` (the peer is afterwards absent even when the `user_left`
broadcast evicts further peers), and it makes the `user_left` broadcast call
iff the tracked `current_username` differs from the default "Anonymous": a
peer that never joined, or whose join set the name "Anonymous" explicitly or
by default, leaves silently. -/
theorem ws_disconnect_removes_and_announces (reg : Registry) (ws : Peer) (rid : RoomId)
    (current_username : String) (sendOk : Peer → Bool) :
    ws ∉ peersOf (on_ws_disconnect reg ws rid current_username sendOk).1 rid ∧
    ((on_ws_disconnect reg ws rid current_username sendOk).2.2 = true ↔
      current_username ≠ "Anonymous") := by
  constructor
  · unfold on_ws_disconnect
    by_cases h : current_username ≠ "Anonymous"
    · rw [if_pos h]
      intro hmem
      exact not_mem_peersOf_disconnect_self reg ws rid
        (broadcast_peersOf_subset (disconnect reg ws rid)
          ⟨.user_left, none, some current_username⟩ rid none sendOk rid ws hmem)
    · rw [if_neg h]
      exact not_mem_peersOf_disconnect_self reg ws rid
  · unfold on_ws_disconnect
    by_cases h : current_username ≠ "Anonymous"
    · rw [if_pos h]
      simp [h]
    · rw [if_neg h]
      simp [h]

/-- An input to the scheduler-relevant part of the system: one inbound
`message` event on some connection, or one self-destruct timer firing. -/
inductive SysOp
  | inbound (rid : RoomId) (current_username : String) (ev : InMessage) (now : Time)
      (dbUp : Bool) (insertOutcome : Option MsgId) (sendOk : Peer → Bool)
  | fire (dbUp deleteRaises : Bool) (message_id : MsgId) (rid : RoomId)
      (sendOk : Peer → Bool)

/-- System state for the timer-map invariant: the store, the registry, the key
list of `_self_destruct_tasks` (line 81), and the ghost list of every id a
successful insert ever returned. -/
structure SysState where
  store : Store
  reg : Registry
  tasks : List MsgId
  insertedEver : List MsgId

def sysStep (s : SysState) : SysOp → SysState
  | .inbound rid cu ev now dbUp ins sendOk =>
    let R := handle_message_event s.store s.reg s.tasks rid cu ev now dbUp ins sendOk
    ⟨R.store, R.reg, R.tasks,
     s.insertedEver ++ (match R.inserted with | some m => [m] | none => [])⟩
  | .fire dbUp dr mid rid sendOk =>
    let R := schedule_self_destruct_fire dbUp dr s.store s.reg s.tasks mid rid sendOk
    ⟨R.store, R.reg, R.tasks, s.insertedEver⟩

def sysInit : SysState := ⟨Store.init, Registry.init, [], []⟩

def applySysOps (s : SysState) (ops : List SysOp) : SysState :=
  ops.foldl sysStep s

theorem handle_message_event_tasks_cases (st : Store) (reg : Registry)
    (tasks : List MsgId) (rid : RoomId) (cu : String) (ev : InMessage) (now : Time)
    (dbUp : Bool) (ins : Option MsgId) (sendOk : Peer → Bool) :
    (handle_message_event st reg tasks rid cu ev now dbUp ins sendOk).tasks = tasks ∨
    ∃ m, (handle_message_event st reg tasks rid cu ev now dbUp ins sendOk).inserted =
        some m ∧
      (handle_message_event st reg tasks rid cu ev now dbUp ins sendOk).tasks =
        tasks ++ [m] := by
  unfold handle_message_event
  by_cases hval : validEncryptedData (ev.data.getD (.dict [])) = true
  · rw [if_pos hval]
    rcases dbUp with _ | _
    · left
      simp
    · rcases ins with _ | mid
      · left
        simp
      · rcases hsd : ev.selfDestruct with _ | _
        · left
          simp [hsd]
        · right
          exact ⟨mid, by simp [hsd], by simp [hsd]⟩
  · rw [if_neg hval]
    left
    rfl

theorem handle_message_event_armed_inserted (st : Store) (reg : Registry)
    (tasks : List MsgId) (rid : RoomId) (cu : String) (ev : InMessage) (now : Time)
    (dbUp : Bool) (ins : Option MsgId) (sendOk : Peer → Bool) (m : MsgId)
    (h : (handle_message_event st reg tasks rid cu ev now dbUp ins sendOk).armed =
      some m) :
    (handle_message_event st reg tasks rid cu ev now dbUp ins sendOk).inserted =
      some m := by
  unfold handle_message_event at h ⊢
  by_cases hval : validEncryptedData (ev.data.getD (.dict [])) = true
  · rw [if_pos hval] at h ⊢
    rcases dbUp with _ | _
    · simp at h
    · rcases ins with _ | mid
      · simp at h
      · rcases hsd : ev.selfDestruct with _ | _ <;> rw [hsd] at h
        · simp at h
        · simp at h ⊢
          exact h
  · rw [if_neg hval] at h
    exact absurd h (by simp)

theorem handle_message_event_no_timer_on_fail (st : Store) (reg : Registry)
    (tasks : List MsgId) (rid : RoomId) (cu : String) (ev : InMessage) (now : Time)
    (dbUp : Bool) (ins : Option MsgId) (sendOk : Peer → Bool)
    (hfail : dbUp = false ∨ ins = none) :
    (handle_message_event st reg tasks rid cu ev now dbUp ins sendOk).armed = none ∧
    (handle_message_event st reg tasks rid cu ev now dbUp ins sendOk).tasks = tasks := by
  unfold handle_message_event
  by_cases hval : validEncryptedData (ev.data.getD (.dict [])) = true
  · rw [if_pos hval]
    rcases hfail with rfl | rfl
    · simp
    · rcases dbUp with _ | _ <;> simp
  · rw [if_neg hval]
    exact ⟨rfl, rfl⟩

theorem fire_tasks_pop (dbUp dr : Bool) (st : Store) (reg : Registry)
    (tasks : List MsgId) (mid : MsgId) (rid : RoomId) (sendOk : Peer → Bool) :
    (schedule_self_destruct_fire dbUp dr st reg tasks mid rid sendOk).tasks =
      tasks.filter (fun t => t != mid) := by
  rcases dbUp <;> rcases dr <;>
    by_cases hany : st.messages.any (fun m => m.id == mid) = true <;>
      simp [schedule_self_destruct_fire, Store.deleteMessageById, hany]

theorem sysStep_tasks_subset (s : SysState) (op : SysOp)
    (h : ∀ m ∈ s.tasks, m ∈ s.insertedEver) :
    ∀ m ∈ (sysStep s op).tasks, m ∈ (sysStep s op).insertedEver := by
  rcases op with ⟨rid, cu, ev, now, dbUp, ins, sendOk⟩ | ⟨dbUp, dr, mid, rid, sendOk⟩
  · intro m hm
    simp only [sysStep] at hm ⊢
    rcases handle_message_event_tasks_cases s.store s.reg s.tasks rid cu ev now dbUp
        ins sendOk with ht | ⟨m0, hins, ht⟩
    · rw [ht] at hm
      exact List.mem_append.mpr (Or.inl (h m hm))
    · rw [ht] at hm
      rw [hins]
      rcases List.mem_append.mp hm with h1 | h2
      · exact List.mem_append.mpr (Or.inl (h m h1))
      · simp only [List.mem_singleton] at h2
        subst h2
        exact List.mem_append.mpr (Or.inr (by simp))
  · intro m hm
    simp only [sysStep] at hm ⊢
    rw [fire_tasks_pop] at hm
    exact h m (List.mem_of_mem_filter hm)

/-- C10: a self-destruct timer exists only for persisted messages. For any
sequence of inbound messages and timer firings from the initial state, every
key of the active-timer map is an id some successful insert returned; an
inbound self-destructing message whose insert fails arms nothing and leaves
the map unchanged; when a timer is armed its key is exactly the durable id the
insert assigned; and a firing timer removes its own entry in every path
(deletion succeeded, found nothing, db down, or the delete raised). -/
theorem timer_map_invariant (ops : List SysOp) :
    (∀ m ∈ (applySysOps sysInit ops).tasks, m ∈ (applySysOps sysInit ops).insertedEver) ∧
    (∀ st reg tasks rid cu ev now dbUp ins sendOk,
      dbUp = false ∨ ins = none →
      (handle_message_event st reg tasks rid cu ev now dbUp ins sendOk).armed = none ∧
      (handle_message_event st reg tasks rid cu ev now dbUp ins sendOk).tasks = tasks) ∧
    (∀ st reg tasks rid cu ev now dbUp ins sendOk m,
      (handle_message_event st reg tasks rid cu ev now dbUp ins sendOk).armed = some m →
      (handle_message_event st reg tasks rid cu ev now dbUp ins sendOk).inserted =
        some m) ∧
    (∀ dbUp dr st reg tasks mid rid sendOk,
      (schedule_self_destruct_fire dbUp dr st reg tasks mid rid sendOk).tasks =
        tasks.filter (fun t => t != mid)) := by
  refine ⟨?_, ?_, ?_, ?_⟩
  · have hgen : ∀ (s : SysState), (∀ m ∈ s.tasks, m ∈ s.insertedEver) →
        ∀ m ∈ (applySysOps s ops).tasks, m ∈ (applySysOps s ops).insertedEver := by
      induction ops with
      | nil => exact fun s h => h
      | cons op rest ih =>
        intro s h
        exact ih (sysStep s op) (sysStep_tasks_subset s op h)
    exact hgen sysInit (fun m hm => absurd hm (List.not_mem_nil m))
  · intro st reg tasks rid cu ev now dbUp ins sendOk hfail
    exact handle_message_event_no_timer_on_fail st reg tasks rid cu ev now dbUp ins
      sendOk hfail
  · intro st reg tasks rid cu ev now dbUp ins sendOk m hm
    exact handle_message_event_armed_inserted st reg tasks rid cu ev now dbUp ins
      sendOk m hm
  · intro dbUp dr st reg tasks mid rid sendOk
    exact fire_tasks_pop dbUp dr st reg tasks mid rid sendOk

/-- Sample op sequence: one self-destructing message whose insert assigns
id 9, then its timer firing. -/
def opsEx : List SysOp :=
  [SysOp.inbound 7 "Anonymous" ⟨some (.dict ["encrypted", "iv"]), some "bob", true, some 30⟩
     0 true (some 9) (fun _ => true),
   SysOp.fire true false 9 7 (fun _ => true)]

theorem timer_map_invariant_witness :
    (∀ m ∈ (applySysOps sysInit opsEx).tasks, m ∈ (applySysOps sysInit opsEx).insertedEver) ∧
    (true = false ∨ (none : Option MsgId) = none) ∧
    ((handle_message_event stEx regEx [] 7 "Anonymous"
        ⟨some (.dict ["encrypted", "iv"]), some "bob", true, some 30⟩ 0 true none
        (fun _ => true)).armed = none ∧
     (handle_message_event stEx regEx [] 7 "Anonymous"
        ⟨some (.dict ["encrypted", "iv"]), some "bob", true, some 30⟩ 0 true none
        (fun _ => true)).tasks = []) ∧
    (handle_message_event stEx regEx [] 7 "Anonymous"
        ⟨some (.dict ["encrypted", "iv"]), some "bob", true, some 30⟩ 0 true (some 9)
        (fun _ => true)).armed = some 9 ∧
    (handle_message_event stEx regEx [] 7 "Anonymous"
        ⟨some (.dict ["encrypted", "iv"]), some "bob", true, some 30⟩ 0 true (some 9)
        (fun _ => true)).inserted = some 9 ∧
    (schedule_self_destruct_fire true false stEx regEx [9] 9 7 (fun _ => true)).tasks =
      ([9] : List MsgId).filter (fun t => t != 9) :=
  ⟨(timer_map_invariant opsEx).1,
   Or.inr rfl,
   (timer_map_invariant opsEx).2.1 stEx regEx [] 7 "Anonymous"
     ⟨some (.dict ["encrypted", "iv"]), some "bob", true, some 30⟩ 0 true none
     (fun _ => true) (Or.inr rfl),
   by decide,
   (timer_map_invariant opsEx).2.2.1 stEx regEx [] 7 "Anonymous"
     ⟨some (.dict ["encrypted", "iv"]), some "bob", true, some 30⟩ 0 true (some 9)
     (fun _ => true) 9 (by decide),
   (timer_map_invariant opsEx).2.2.2 true false stEx regEx [9] 9 7 (fun _ => true)⟩

theorem registry_membership_invariant_witness :
    (((applyRegOps (Store.init, Registry.init)
        [RegOp.conn 1 7 0 false, RegOp.conn 2 7 0 false, RegOp.disc 1 7,
         RegOp.disc 2 7]).2.active_rooms 7).isSome ↔
      ∃ ps, (applyRegOps (Store.init, Registry.init)
        [RegOp.conn 1 7 0 false, RegOp.conn 2 7 0 false, RegOp.disc 1 7,
         RegOp.disc 2 7]).2.active_rooms 7 = some ps ∧ ps ≠ []) ∧
    (((applyRegOps (Store.init, Registry.init)
        [RegOp.conn 1 7 0 false, RegOp.conn 2 7 0 false, RegOp.disc 1 7,
         RegOp.disc 2 7]).2.room_created_at 7).isSome ↔
      ((applyRegOps (Store.init, Registry.init)
        [RegOp.conn 1 7 0 false, RegOp.conn 2 7 0 false, RegOp.disc 1 7,
         RegOp.disc 2 7]).2.active_rooms 7).isSome) :=
  registry_membership_invariant
    [RegOp.conn 1 7 0 false, RegOp.conn 2 7 0 false, RegOp.disc 1 7, RegOp.disc 2 7] 7

theorem broadcast_failure_isolation_witness :
    (∀ p ∈ broadcastTargets regEx 7 none, (fun q => q != 2) p = true →
      (⟨p, 7, ⟨.message, none, none⟩⟩ : Delivery) ∈
        (broadcast regEx ⟨.message, none, none⟩ 7 none (fun q => q != 2)).2) ∧
    (∀ p ∈ broadcastTargets regEx 7 none, (fun q => q != 2) p = false →
      p ∉ peersOf (broadcast regEx ⟨.message, none, none⟩ 7 none (fun q => q != 2)).1 7) :=
  broadcast_failure_isolation regEx ⟨.message, none, none⟩ 7 none (fun q => q != 2)

theorem ws_disconnect_removes_and_announces_witness :
    1 ∉ peersOf (on_ws_disconnect regEx 1 7 "bob" (fun _ => true)).1 7 ∧
    ((on_ws_disconnect regEx 1 7 "bob" (fun _ => true)).2.2 = true ↔
      "bob" ≠ "Anonymous") :=
  ws_disconnect_removes_and_announces regEx 1 7 "bob" (fun _ => true)

end ChatApp
